import Mathlib

/-!
# bsck: frame encoding, SOCKS5 front-end, pending connection, console, router

A shallow embedding of `util.go` (`writeCmd`), `socks5.go` (`PendingConn`,
`SocksProxy.procConn`) and `console.go` (the path of `Ping`, `parseProxyURI`),
together with the parts of the router that the specification describes
(session table, login, dial), and the properties proved of them.  Definitions
come first, lemmas and claims after them.

Conventions.  A byte is a `Nat` below 256; byte arithmetic of the source is
written with an explicit `% 256`, `uint16` arithmetic with `% 65536`.  A Go
string is the list of its bytes.
-/

namespace Bsck

/-! ## Go byte slices -/

/-- A Go byte slice seen from its first element: `elems` are the `len` bytes the
slice exposes, `spare` the bytes of the backing array between `len` and `cap`.
`len(s) = elems.length`, `cap(s) = elems.length + spare.length`. -/
structure Slice where
  elems : List Nat
  spare : List Nat
deriving DecidableEq, Repr

/-- `copy(dst[off:], src)` on the exposed bytes `dst`, for `off ≤ len(dst)`: the
first `min(len(dst)-off, len(src))` bytes of `src` overwrite `dst` from `off`. -/
def copyAt (dst : List Nat) (off : Nat) (src : List Nat) : List Nat :=
  dst.take off ++ src.take (dst.length - off) ++ dst.drop (off + src.length)

/-- `binary.BigEndian.PutUint64`: the eight bytes of `v`, most significant first. -/
def putUint64 (v : Nat) : List Nat :=
  [v / 2 ^ 56 % 256, v / 2 ^ 48 % 256, v / 2 ^ 40 % 256, v / 2 ^ 32 % 256,
   v / 2 ^ 24 % 256, v / 2 ^ 16 % 256, v / 2 ^ 8 % 256, v % 256]

/-- `binary.BigEndian.PutUint16`: the two bytes of `v`, most significant first. -/
def putUint16 (v : Nat) : List Nat :=
  [v / 2 ^ 8 % 256, v % 256]

/-- The big-endian value of a byte string. -/
def bigEndian (bs : List Nat) : Nat :=
  bs.foldl (fun acc b => acc * 256 + b) 0

/-! ## util.go: writeCmd -/

/-- `writeCmd(w, buffer, cmd, sid, msg)` of util.go.  `buffer = none` is the nil
slice.  The result is `none` when the body panics on an index or slice bound,
and otherwise the frame handed to `w.WriteFrame` with the error `w` returned.

* `buffer == nil`: `buffer = make([]byte, len(msg)+13)`;
* `buffer[4] = cmd` needs `4 < len(buffer)`;
* `PutUint64(buffer[5:], sid)` needs `8 ≤ len(buffer[5:])`;
* `copy(buffer[13:], msg)` copies `min(len(buffer)-13, len(msg))` bytes;
* `buffer[:len(msg)+13]` needs `len(msg)+13 ≤ cap(buffer)`.

`msg` is a value: it is assumed not to share memory with `buffer[4:13]`. -/
def writeCmd (w : List Nat → Option String) (buffer : Option Slice) (cmd sid : Nat)
    (msg : List Nat) : Option (List Nat × Option String) :=
  let buffer : Slice :=
    match buffer with
    | none => ⟨List.replicate (msg.length + 13) 0, []⟩
    | some b => b
  if buffer.elems.length ≤ 4 then none
  else
    let e1 := buffer.elems.set 4 cmd
    if e1.length < 13 then none
    else
      let e2 := copyAt e1 5 (putUint64 sid)
      let e3 := copyAt e2 13 msg
      if e3.length + buffer.spare.length < msg.length + 13 then none
      else
        let frame := (e3 ++ buffer.spare).take (msg.length + 13)
        some (frame, w frame)

/-- Decoding of a frame as the wire format lays it out: the command is byte 4,
the session id the big-endian value of bytes 5..12, the payload bytes 13 to the
end of the frame. -/
def decodeFrame (frame : List Nat) : Nat × Nat × List Nat :=
  (frame.getD 4 0, bigEndian ((frame.drop 5).take 8), frame.drop 13)


/-- The buffer precondition of `writeCmd`: the buffer is nil, or its length is
at least `len(msg)+13`. -/
def longEnough (buffer : Option Slice) (msg : List Nat) : Prop :=
  match buffer with
  | none => True
  | some b => msg.length + 13 ≤ b.elems.length

instance (buffer : Option Slice) (msg : List Nat) : Decidable (longEnough buffer msg) :=
  match buffer with
  | none => isTrue trivial
  | some b => inferInstanceAs (Decidable (msg.length + 13 ≤ b.elems.length))

/-- Bytes 0..3 of the buffer as `writeCmd` receives it (zero for a fresh one). -/
def lengthField (buffer : Option Slice) : List Nat :=
  match buffer with
  | none => [0, 0, 0, 0]
  | some b => b.elems.take 4

/-! ## socks5.go: PendingConn -/

/-- State of the channel `wc chan int`.  Nothing is ever sent on it: a receive
blocks while it is open and returns at once when it is closed; closing a closed
channel panics. -/
inductive Chan where
  | opened
  | closed
deriving DecidableEq, Repr

/-- The fields `pending` and `wc` of `PendingConn`.  The field `Raw` is a
reference to the wrapped `io.ReadWriteCloser`, whose state (a value of a type
`ρ`) is passed alongside. -/
structure PendingConn where
  pending : Nat
  wc : Chan
deriving DecidableEq, Repr

/-- The wrapped `io.ReadWriteCloser`: what `Write`, `Read` and `Close` return
and how they change its state.  `Read` returns the bytes it stored in `b`. -/
structure ReadWriteCloser (ρ : Type) where
  Write : ρ → List Nat → ρ × (Nat × Option String)
  Read : ρ → List Nat → ρ × (List Nat × Nat × Option String)
  Close : ρ → ρ × Option String

/-- `NewPendingConn(raw)`: `pending: 1, wc: make(chan int)`. -/
def NewPendingConn : PendingConn :=
  { pending := 1, wc := Chan.opened }

/-- `atomic.CompareAndSwapUint32(&p.pending, 1, 0)`. -/
def PendingConn.casPending (p : PendingConn) : PendingConn × Bool :=
  if p.pending = 1 then ({ p with pending := 0 }, true) else (p, false)

/-- `close(p.wc)`; `none` is the panic of closing a closed channel. -/
def PendingConn.closeWc (p : PendingConn) : Option PendingConn :=
  match p.wc with
  | Chan.opened => some { p with wc := Chan.closed }
  | Chan.closed => none

/-- `PendingConn.Start`, run without interruption. -/
def PendingConn.Start (p : PendingConn) : Option PendingConn :=
  match p.casPending with
  | (p1, true) => p1.closeWc
  | (p1, false) => some p1

/-- `PendingConn.Close`, run without interruption: the state after it, the
state of `Raw` after `Raw.Close()`, and the error returned. -/
def PendingConn.Close {ρ : Type} (io : ReadWriteCloser ρ) (p : PendingConn) (raw : ρ) :
    Option (PendingConn × ρ × Option String) :=
  let q := match p.casPending with
    | (p1, true) => p1.closeWc
    | (p1, false) => some p1
  match q with
  | none => none
  | some p2 => some (p2, io.Close raw)

/-- Outcome of a call that may block on `<-p.wc`. -/
inductive Call (α : Type) where
  | waits
  | returned (a : α)

/-- `PendingConn.Write(b)` started in state `p` with no other call running:
it waits at `<-p.wc` when `p.pending == 1` and the channel is open, and
otherwise returns what `p.Raw.Write(b)` returns. -/
def PendingConn.Write {ρ : Type} (io : ReadWriteCloser ρ) (p : PendingConn) (raw : ρ)
    (b : List Nat) : Call (ρ × (Nat × Option String)) :=
  if p.pending = 1 then
    match p.wc with
    | Chan.opened => Call.waits
    | Chan.closed => Call.returned (io.Write raw b)
  else Call.returned (io.Write raw b)

/-- `PendingConn.Read(b)` started in state `p` with no other call running. -/
def PendingConn.Read {ρ : Type} (io : ReadWriteCloser ρ) (p : PendingConn) (raw : ρ)
    (b : List Nat) : Call (ρ × (List Nat × Nat × Option String)) :=
  if p.pending = 1 then
    match p.wc with
    | Chan.opened => Call.waits
    | Chan.closed => Call.returned (io.Read raw b)
  else Call.returned (io.Read raw b)

/-! ### PendingConn under interleaving

Several goroutines call the methods of one `PendingConn`; each statement of a
method body is one step, and a schedule picks which call moves next. -/

/-- Position of a `Write` or `Read` call: before `if p.pending == 1`, at
`<-p.wc`, before the call of `p.Raw`, returned. -/
inductive IoPc where
  | test
  | recv
  | call
  | done
deriving DecidableEq, Repr

/-- Position of a `Start` or `Close` call: before the compare-and-swap, before
`close(p.wc)`, before `p.Raw.Close()` (`Close` only), returned. -/
inductive GatePc where
  | cas
  | closeWc
  | rawClose
  | done
deriving DecidableEq, Repr

/-- A method call in progress, with the value it returned once it is done. -/
inductive Thread where
  | write (b : List Nat) (pc : IoPc) (ret : Option (Nat × Option String))
  | read (b : List Nat) (pc : IoPc) (ret : Option (List Nat × Nat × Option String))
  | start (pc : GatePc)
  | close (pc : GatePc) (ret : Option (Option String))
deriving DecidableEq, Repr

/-- The connection, the state of `Raw`, the number of calls that reached `Raw`,
the calls in progress, and whether a goroutine has panicked. -/
structure Sys (ρ : Type) where
  p : PendingConn
  raw : ρ
  rawCalls : Nat
  threads : List Thread
  panicked : Bool

/-- What happens next: a goroutine enters a method, or call number `i` runs
its next statement. -/
inductive Action where
  | callWrite (b : List Nat)
  | callRead (b : List Nat)
  | callStart
  | callClose
  | run (i : Nat)
deriving DecidableEq, Repr

/-- The state right after `NewPendingConn(raw)`. -/
def Sys.init {ρ : Type} (raw : ρ) : Sys ρ :=
  { p := NewPendingConn, raw := raw, rawCalls := 0, threads := [], panicked := false }

/-- The two statements `if p.pending == 1 { <-p.wc }` of `Write` and `Read`:
the receive makes no progress while the channel is open. -/
def ioAdvance (p : PendingConn) : IoPc → IoPc
  | IoPc.test => if p.pending = 1 then IoPc.recv else IoPc.call
  | IoPc.recv =>
    match p.wc with
    | Chan.opened => IoPc.recv
    | Chan.closed => IoPc.call
  | pc => pc

/-- One statement of call number `i`. -/
def Sys.run {ρ : Type} (io : ReadWriteCloser ρ) (s : Sys ρ) (i : Nat) : Sys ρ :=
  if s.panicked then s
  else
    match s.threads[i]? with
    | none => s
    | some (Thread.write b IoPc.call _) =>
      let r := io.Write s.raw b
      { s with raw := r.1, rawCalls := s.rawCalls + 1,
               threads := s.threads.set i (Thread.write b IoPc.done (some r.2)) }
    | some (Thread.write b pc ret) =>
      { s with threads := s.threads.set i (Thread.write b (ioAdvance s.p pc) ret) }
    | some (Thread.read b IoPc.call _) =>
      let r := io.Read s.raw b
      { s with raw := r.1, rawCalls := s.rawCalls + 1,
               threads := s.threads.set i (Thread.read b IoPc.done (some r.2)) }
    | some (Thread.read b pc ret) =>
      { s with threads := s.threads.set i (Thread.read b (ioAdvance s.p pc) ret) }
    | some (Thread.start GatePc.cas) =>
      match s.p.casPending with
      | (p1, true) => { s with p := p1, threads := s.threads.set i (Thread.start GatePc.closeWc) }
      | (p1, false) => { s with p := p1, threads := s.threads.set i (Thread.start GatePc.done) }
    | some (Thread.start GatePc.closeWc) =>
      match s.p.closeWc with
      | none => { s with panicked := true }
      | some p1 => { s with p := p1, threads := s.threads.set i (Thread.start GatePc.done) }
    | some (Thread.start _) => s
    | some (Thread.close GatePc.cas ret) =>
      match s.p.casPending with
      | (p1, true) =>
        { s with p := p1, threads := s.threads.set i (Thread.close GatePc.closeWc ret) }
      | (p1, false) =>
        { s with p := p1, threads := s.threads.set i (Thread.close GatePc.rawClose ret) }
    | some (Thread.close GatePc.closeWc ret) =>
      match s.p.closeWc with
      | none => { s with panicked := true }
      | some p1 =>
        { s with p := p1, threads := s.threads.set i (Thread.close GatePc.rawClose ret) }
    | some (Thread.close GatePc.rawClose _) =>
      let r := io.Close s.raw
      { s with raw := r.1, rawCalls := s.rawCalls + 1,
               threads := s.threads.set i (Thread.close GatePc.done (some r.2)) }
    | some (Thread.close GatePc.done _) => s

/-- One action of a schedule. -/
def Sys.step {ρ : Type} (io : ReadWriteCloser ρ) (s : Sys ρ) : Action → Sys ρ
  | Action.callWrite b => { s with threads := s.threads ++ [Thread.write b IoPc.test none] }
  | Action.callRead b => { s with threads := s.threads ++ [Thread.read b IoPc.test none] }
  | Action.callStart => { s with threads := s.threads ++ [Thread.start GatePc.cas] }
  | Action.callClose => { s with threads := s.threads ++ [Thread.close GatePc.cas none] }
  | Action.run i => s.run io i

/-- The state after a schedule. -/
def Sys.exec {ρ : Type} (io : ReadWriteCloser ρ) (s : Sys ρ) (acts : List Action) : Sys ρ :=
  acts.foldl (Sys.step io) s

/-- An action that enters `Start` or `Close`. -/
def Action.isGate : Action → Bool
  | Action.callStart => true
  | Action.callClose => true
  | _ => false

/-- A `Write` or `Read` call that has not got past `<-p.wc`. -/
def Thread.waiting : Thread → Bool
  | Thread.write _ IoPc.test none => true
  | Thread.write _ IoPc.recv none => true
  | Thread.read _ IoPc.test none => true
  | Thread.read _ IoPc.recv none => true
  | _ => false

/-- The `Echo` of the tests as far as `TestPendingConn` uses it, its state being
the number of writes received: `Write` takes all of `p`, `Read` and `Close`
return at once. -/
def echoRaw : ReadWriteCloser Nat :=
  { Write := fun n p => (n + 1, (p.length, none)),
    Read := fun n b => (n, (b, 0, none)),
    Close := fun n => (n, none) }

/-! ### Invariants of the interleaving model -/

/-- No call has got past `<-p.wc`: the state of a connection on which neither
`Start` nor `Close` has been entered. -/
def Gated {ρ : Type} (raw0 : ρ) (s : Sys ρ) : Prop :=
  s.p = NewPendingConn ∧ s.raw = raw0 ∧ s.rawCalls = 0 ∧ s.panicked = false ∧
    ∀ t ∈ s.threads, t.waiting = true

/-- A `Start` or `Close` call that has executed its compare-and-swap. -/
def Thread.pastCas : Thread → Bool
  | Thread.start GatePc.cas => false
  | Thread.start _ => true
  | Thread.close GatePc.cas _ => false
  | Thread.close _ _ => true
  | _ => false

/-- A `Start` or `Close` call that is about to execute `close(p.wc)`. -/
def Thread.atCloseWc : Thread → Bool
  | Thread.start GatePc.closeWc => true
  | Thread.close GatePc.closeWc _ => true
  | _ => false

/-- The compare-and-swap elects one call to close the channel: while `pending`
is 1 no call is past its compare-and-swap; afterwards `pending` is 0 and either
the channel is open and exactly one call is about to close it, or it is closed
and no call is about to close it. -/
def Sound {ρ : Type} (s : Sys ρ) : Prop :=
  s.panicked = false ∧
    ((s.p.pending = 1 ∧ s.p.wc = Chan.opened ∧ s.threads.countP Thread.pastCas = 0 ∧
        s.threads.countP Thread.atCloseWc = 0) ∨
     (s.p.pending = 0 ∧ s.p.wc = Chan.opened ∧ s.threads.countP Thread.atCloseWc = 1) ∨
     (s.p.pending = 0 ∧ s.p.wc = Chan.closed ∧ s.threads.countP Thread.atCloseWc = 0))

/-! ## socks5.go: SocksProxy.procConn -/

/-- A call `procConn` makes, in the order of the log: `conn.Write(bs)`,
`s.Dailer(uri, pending)`, `pending.Start()`, `pending.Close()`, `conn.Close()`. -/
inductive Event where
  | write (bs : List Nat)
  | dail (uri : List Nat)
  | start
  | pendingClose
  | close
deriving DecidableEq, Repr

/-- The client connection `conn`: the bytes the client sends before it closes
its side and that have not been read yet, the error a read returns once they
are used up, the error the `k`-th `Write` returns (`none` is nil), the number of
`Write` calls made, and the log of calls.  `reader := bufio.NewReader(conn)`
hands out these bytes in order; its read-ahead is not modelled. -/
structure Conn where
  input : List Nat
  readErr : String
  writeErr : Nat → Option String
  writes : Nat
  log : List Event

/-- A fresh connection on which the client sends `input` and every write
succeeds. -/
def Conn.client (input : List Nat) : Conn :=
  { input := input, readErr := "EOF", writeErr := fun _ => none, writes := 0, log := [] }

/-- `conn.Write(b)`. -/
def Conn.Write (c : Conn) (b : List Nat) : Conn × (Nat × Option String) :=
  ({ c with writes := c.writes + 1, log := c.log ++ [Event.write b] },
   (match c.writeErr c.writes with
    | none => b.length
    | some _ => 0),
   c.writeErr c.writes)

/-- `conn.Read(b)`: at most `len(b)` of the bytes the client sent. -/
def Conn.Read (c : Conn) (b : List Nat) : Conn × (List Nat × Nat × Option String) :=
  match c.input with
  | [] => (c, (b, 0, some c.readErr))
  | _ =>
    ({ c with input := c.input.drop b.length },
     (c.input.take b.length ++ b.drop (c.input.take b.length).length,
      (c.input.take b.length).length, none))

/-- `conn.Close()`. -/
def Conn.Close (c : Conn) : Conn × Option String :=
  ({ c with log := c.log ++ [Event.close] }, none)

/-- The connection as the `io.ReadWriteCloser` a `PendingConn` wraps. -/
def Conn.rwc : ReadWriteCloser Conn :=
  { Write := Conn.Write, Read := Conn.Read, Close := Conn.Close }

/-- The scratch buffer `buf := make([]byte, 1024*64)`: the byte at each index.
Every index `procConn` computes is at most 261, far below the length 65536, so
the length is not carried along. -/
abbrev Buf := Nat → Nat

/-- `buf[i] = v`. -/
def Buf.set (buf : Buf) (i v : Nat) : Buf :=
  fun j => if j = i then v else buf j

/-- The bytes `buf[lo:hi]`, for `lo ≤ hi`. -/
def Buf.slice (buf : Buf) (lo hi : Nat) : List Nat :=
  (List.range (hi - lo)).map (fun k => buf (lo + k))

/-- The buffer after `data` has been stored from index `off`. -/
def Buf.store (buf : Buf) (off : Nat) (data : List Nat) : Buf :=
  fun j => if off ≤ j ∧ j < off + data.length then data.getD (j - off) 0 else buf j

/-- Modelled from the spec: `fullBuf(r, p, length, last)` is declared in the
router source, which is not among the files at hand; the callers and tests at
hand use it to fill `p[0:length]` with exactly `length` bytes read from `r`,
and get an error when the stream ends before that.  Here `p` is `buf[off:]` and
`r` reads the connection. -/
def fullBuf (c : Conn) (buf : Buf) (off length : Nat) : Conn × Buf × Option String :=
  if length ≤ c.input.length then
    ({ c with input := c.input.drop length }, buf.store off (c.input.take length), none)
  else
    ({ c with input := [] }, buf.store off c.input, some c.readErr)

/-- `%v` of an unsigned integer: its decimal digits. -/
def fmtV (n : Nat) : String :=
  String.mk (Nat.toDigits 10 n)

/-- `%x` of an unsigned integer: its hexadecimal digits, lower case. -/
def fmtX (n : Nat) : String :=
  String.mk (Nat.toDigits 16 n)

/-- The bytes of an ASCII string. -/
def bytes (s : String) : List Nat :=
  s.toList.map Char.toNat

/-- `fmt.Errorf("only ver 0x05 is supported, but %x", b)`. -/
def verError (b : Nat) : String :=
  "only ver 0x05 is supported, but " ++ fmtX b

/-- `fmt.Errorf("ATYP %v is not supported", b)`. -/
def atypError (b : Nat) : String :=
  "ATYP " ++ fmtV b ++ " is not supported"

/-- How `procConn` ended: the connection with its log, the final value of
`err`, whether the goroutine panicked, and the `PendingConn` if one was made. -/
structure Result where
  conn : Conn
  err : Option String
  panicked : Bool
  pending : Option PendingConn

/-- A `return` of `procConn`: the deferred function closes the connection when
`err != nil`. -/
def Result.ret (c : Conn) (err : Option String) (pending : Option PendingConn) : Result :=
  match err with
  | none => { conn := c, err := none, panicked := false, pending := pending }
  | some e => { conn := (c.Close).1, err := some e, panicked := false, pending := pending }

/-- A run-time panic inside `procConn`: `err` is nil at that point, so the
deferred function closes nothing, and the panic goes on. -/
def Result.panic (c : Conn) : Result :=
  { conn := c, err := none, panicked := true, pending := none }

/-- What the `switch buf[3]` of `procConn` leaves behind. -/
inductive Request where
  | parsed (c : Conn) (buf : Buf) (remote : List Nat) (port : Nat) (err : Option String)
  | unsupported (err : String)
  | panic

/-- The `switch buf[3]` of `procConn`.  `buf[4]+2`, `buf[4]+5` and `buf[4]+6`
are sums of type `byte`; `port` is a `uint16`.  `buf[5 : hi]` panics when
`hi < 5`.  When `fullBuf` fails, `remote` and `port` keep their zero values and
control leaves the switch all the same. -/
def parseRequest (c : Conn) (buf : Buf) : Request :=
  if buf 3 = 0x01 then
    match fullBuf c (buf) 5 5 with
    | (c1, buf1, some e) => Request.parsed c1 buf1 [] 0 (some e)
    | (c1, buf1, none) =>
      Request.parsed c1 buf1
        (bytes (fmtV (buf1 4) ++ "." ++ fmtV (buf1 5) ++ "." ++ fmtV (buf1 6) ++ "." ++
          fmtV (buf1 7)))
        ((buf1 8 * 256 + buf1 9) % 65536) none
  else if buf 3 = 0x03 then
    match fullBuf c buf 5 ((buf 4 + 2) % 256) with
    | (c1, buf1, some e) => Request.parsed c1 buf1 [] 0 (some e)
    | (c1, buf1, none) =>
      if (buf1 4 + 5) % 256 < 5 then Request.panic
      else
        Request.parsed c1 buf1 (buf1.slice 5 ((buf1 4 + 5) % 256))
          ((buf1 ((buf1 4 + 5) % 256) * 256 + buf1 ((buf1 4 + 6) % 256)) % 65536) none
  else Request.unsupported (atypError (buf 3))

/-- The ten reply bytes `05 rep 00 01 00 00 00 00 00 00` stored into `buf[0:10]`. -/
def Buf.reply (buf : Buf) (rep : Nat) : Buf :=
  ((((((((((buf.set 0 0x05).set 1 rep).set 2 0x00).set 3 0x01).set 4 0x00).set 5 0x00).set 6
    0x00).set 7 0x00).set 8 0x00).set 9 0x00)

/-- The end of `procConn`, from `uri := fmt.Sprintf("%v:%v", remote, port)` on:
the call of `s.Dailer` and the reply.  `Dailer uri` is the error
`s.Dailer(uri, pending)` returns (`none` is nil). -/
def dialRemote (Dailer : List Nat → Option String) (c5 : Conn) (buf5 : Buf)
    (remote : List Nat) (port : Nat) : Result :=
  let uri := remote ++ bytes ":" ++ bytes (fmtV port)
  let pending := NewPendingConn
  let c6 : Conn := { c5 with log := c5.log ++ [Event.dail uri] }
  match Dailer uri with
  | some e =>
    let c7 := (c6.Write ((buf5.reply 0x04).slice 0 10)).1
    let c8 : Conn := { c7 with log := c7.log ++ [Event.pendingClose] }
    match pending.Close Conn.rwc c8 with
    | none => Result.panic c8
    | some (p1, c9, _) => Result.ret c9 (some e) (some p1)
  | none =>
    match c6.Write ((buf5.reply 0x00).slice 0 10) with
    | (c7, _, none) =>
      let c8 : Conn := { c7 with log := c7.log ++ [Event.start] }
      match pending.Start with
      | none => Result.panic c8
      | some p1 => Result.ret c8 none (some p1)
    | (c7, _, some e) =>
      let c8 : Conn := { c7 with log := c7.log ++ [Event.pendingClose] }
      match pending.Close Conn.rwc c8 with
      | none => Result.panic c8
      | some (p1, c9, _) => Result.ret c9 (some e) (some p1)

/-- The part of `procConn` under `//Procedure request`, entered with the
connection and buffer the method negotiation left. -/
def procRequest (Dailer : List Nat → Option String) (c3 : Conn) (buf2 : Buf) : Result :=
  match fullBuf c3 buf2 0 5 with
  | (c4, _, some e) => Result.ret c4 (some e) none
  | (c4, buf4, none) =>
    if buf4 0 ≠ 0x05 then Result.ret c4 (some (verError (buf4 0))) none
    else
      match parseRequest c4 buf4 with
      | Request.unsupported e => Result.ret c4 (some e) none
      | Request.panic => Result.panic c4
      | Request.parsed c5 buf5 remote port _ => dialRemote Dailer c5 buf5 remote port

/-- `SocksProxy.procConn(conn)` with `s.Dailer = Dailer`: the part under
`//Procedure method`, then `procRequest`. -/
def procConn (Dailer : List Nat → Option String) (conn : Conn) : Result :=
  let buf : Buf := fun _ => 0
  match fullBuf conn buf 0 2 with
  | (c1, _, some e) => Result.ret c1 (some e) none
  | (c1, buf1, none) =>
    if buf1 0 ≠ 0x05 then Result.ret c1 (some (verError (buf1 0))) none
    else
      match fullBuf c1 buf1 2 (buf1 1) with
      | (c2, _, some e) => Result.ret c2 (some e) none
      | (c2, buf2, none) =>
        match c2.Write [0x05, 0x00] with
        | (c3, _, some e) => Result.ret c3 (some e) none
        | (c3, _, none) => procRequest Dailer c3 buf2

/-- The uris `s.Dailer` was called with, in order. -/
def Result.dailed (r : Result) : List (List Nat) :=
  r.conn.log.filterMap (fun e =>
    match e with
    | Event.dail uri => some uri
    | _ => none)

/-- A connection just accepted: nothing written, nothing logged. -/
def Conn.accepted (input : List Nat) (readErr : String) (writeErr : Nat → Option String) : Conn :=
  { input := input, readErr := readErr, writeErr := writeErr, writes := 0, log := [] }

/-- The method negotiation a client sends: `05 nmethods methods`. -/
def negotiation (methods : List Nat) : List Nat :=
  [0x05, methods.length] ++ methods

/-- The connection after a completed method negotiation: one write made, the
reply `05 00` logged, `tail` still to be read. -/
def Conn.negotiated (tail : List Nat) (readErr : String) (writeErr : Nat → Option String) :
    Conn :=
  { input := tail, readErr := readErr, writeErr := writeErr, writes := 1,
    log := [Event.write [0x05, 0x00]] }

/-- The request `05 cmd 00 03 len domain port-hi port-lo` as `proxDial` of the
tests lays it out; `len` is `byte(len(remote))`. -/
def requestDomain (cmd : Nat) (domain : List Nat) (port : Nat) : List Nat :=
  [0x05, cmd, 0x00, 0x03, domain.length % 256] ++ domain ++ putUint16 port

/-- The request `05 cmd 00 01 a b c d port-hi port-lo` as `proxDialIP` of the
tests lays it out. -/
def requestIPv4 (cmd a b c d port : Nat) : List Nat :=
  [0x05, cmd, 0x00, 0x01, a, b, c, d] ++ putUint16 port

/-! ## Router: session table and login

The router source is not among the files at hand; its tests are.  The
definitions of this section follow the specification. -/

/-- One end of a relayed stream: a channel identity and a session id. -/
abbrev Endpoint := Nat × Nat

/-- Modelled from the spec: the session table of the Router, whose source is
missing.  "A bidirectional mapping between two `(channel, sid)` endpoints",
with keys `(channel_identity, sid)`: a list of entries `key -> peer`. -/
abbrev SessionTable := List (Endpoint × Endpoint)

/-- Modelled from the spec: the lookup of the half keyed by `k`
("look up the reverse half `(chan, sid) -> (peer_chan, peer_sid)`"); the table
source is missing. -/
def SessionTable.get : SessionTable → Endpoint → Option Endpoint
  | [], _ => none
  | (k, v) :: t, x => if k = x then some v else SessionTable.get t x

/-- Modelled from the spec: removal of the entry keyed by `k`; the table source
is missing. -/
def SessionTable.del (t : SessionTable) (k : Endpoint) : SessionTable :=
  t.filter (fun e => decide (e.1 ≠ k))

/-- Modelled from the spec: `table[k] = v` on a keyed map, replacing what `k`
mapped to; the table source is missing. -/
def SessionTable.put (t : SessionTable) (k v : Endpoint) : SessionTable :=
  (k, v) :: t.del k

/-- Modelled from the spec: `addTable(src, srcSid, dst, dstSid)`, called by the
tests and missing from the source at hand: "promote to an active Session
(install both halves)". -/
def addTable (t : SessionTable) (src srcSid dst dstSid : Nat) : SessionTable :=
  (t.put (src, srcSid) (dst, dstSid)).put (dst, dstSid) (src, srcSid)

/-- Modelled from the spec: removal of a session by one of its halves, missing
from the source at hand: "`Closed{sid}` on `chan`: remove both halves of the
session". -/
def removeTable (t : SessionTable) (conn sid : Nat) : SessionTable :=
  match t.get (conn, sid) with
  | none => t
  | some peer => (t.del (conn, sid)).del peer

/-- Modelled from the spec: the session tables a Router can reach, its source
being missing.  It starts empty; a session is installed between two endpoints
that hold no session ("sid: session identifier, unique per channel",
"`sid_alloc`: never reused during a run"); a session is removed by either half,
and removing at an endpoint without session changes nothing. -/
inductive ReachableTable : SessionTable → Prop where
  | empty : ReachableTable []
  | add (t : SessionTable) (src srcSid dst dstSid : Nat) :
      ReachableTable t → t.get (src, srcSid) = none → t.get (dst, dstSid) = none →
      ReachableTable (addTable t src srcSid dst dstSid)
  | remove (t : SessionTable) (conn sid : Nat) :
      ReachableTable t → ReachableTable (removeTable t conn sid)

/-- Keys are unique and every entry has its reverse. -/
def SessionTable.Paired (t : SessionTable) : Prop :=
  (t.map Prod.fst).Nodup ∧ ∀ e ∈ t, (e.2, e.1) ∈ t

/-- Modelled from the spec: the payload of a `LoginBack` frame, "the accepting
peer's name on success, or an error message"; the encoding is left to the
implementation ("`{name}` or `{error}`"), and the constructor stands for the
error marker.  The login source is missing. -/
inductive LoginBack where
  | name (server : String)
  | error (message : String)
deriving DecidableEq, Repr

/-- Modelled from the spec: what the login handshake uses of the Router, whose
source is missing: `name`, `acl` ("a mapping from peer name to expected
token") and `bonds` (peer name to the indices of the channels of its bond). -/
structure Router where
  name : String
  acl : List (String × String)
  bonds : List (String × List Nat)
deriving DecidableEq, Repr

/-- Modelled from the spec: "the next free slot in that bond", the least index
no channel of the bond uses; the bond source is missing. -/
def nextIndex (used : List Nat) : Nat :=
  ((List.range (used.length + 1)).find? (fun i => !used.contains i)).getD used.length

/-- Modelled from the spec: "adds the channel to the bond for `name`"; a bond
"is created on first channel insertion".  The bond source is missing. -/
def addChannel (bonds : List (String × List Nat)) (name : String) :
    List (String × List Nat) :=
  match bonds.lookup name with
  | none => (name, [0]) :: bonds
  | some used => (name, nextIndex used :: used) :: bonds.filter (fun b => decide (b.1 ≠ name))

/-- Modelled from the spec: the server side of the handshake (section 4.2),
whose source is missing: the router after the `Login` frame, the `LoginBack`
it sends, and whether it closes the connection.
1. name or token empty: `LoginBack("error: ...")`, close;
2. `acl[name]` absent or different from the token: `LoginBack("auth failed")`,
   close;
3. otherwise the channel joins the bond of `name` and the reply carries the
   server's name. -/
def procLogin (r : Router) (name token : String) : Router × LoginBack × Bool :=
  if name = "" ∨ token = "" then
    (r, LoginBack.error "error: name and token are required", true)
  else
    match r.acl.lookup name with
    | none => (r, LoginBack.error "auth failed", true)
    | some expected =>
      if expected = token then
        ({ r with bonds := addChannel r.bonds name }, LoginBack.name r.name, false)
      else (r, LoginBack.error "auth failed", true)

/-- Modelled from the spec: the client side, `Login(local_name, remote_addr,
token, index)`, whose source is missing, against the server `server`: it
"reads one frame expecting `LoginBack`; a payload not beginning with an error
marker is treated as success; otherwise the error string is returned".  The
result is the server afterwards and the error `Login` returns (`none` is nil). -/
def Login (server : Router) (localName token : String) : Router × Option String :=
  match procLogin server localName token with
  | (server1, LoginBack.name _, _) => (server1, none)
  | (server1, LoginBack.error message, _) => (server1, some message)

/-! ## console.go: Ping path and parseProxyURI

Go strings are lists of bytes; the functions of package `strings` the source
calls are written out on them. -/

/-- `strings.HasPrefix(s, pre)`. -/
def HasPrefix : List Nat → List Nat → Bool
  | _, [] => true
  | [], _ :: _ => false
  | c :: s, d :: pre => c = d && HasPrefix s pre

/-- `strings.HasSuffix(s, suf)`. -/
def HasSuffix (s suf : List Nat) : Bool :=
  suf.length ≤ s.length && s.drop (s.length - suf.length) = suf

/-- `strings.TrimPrefix(s, pre)`. -/
def TrimPrefix (s pre : List Nat) : List Nat :=
  if HasPrefix s pre then s.drop pre.length else s

/-- `strings.TrimSuffix(s, suf)`. -/
def TrimSuffix (s suf : List Nat) : List Nat :=
  if HasSuffix s suf then s.take (s.length - suf.length) else s

/-- `strings.Index(s, substr)`: the index of the first instance of `substr` in
`s`, `none` for the `-1` of the source. -/
def Index : List Nat → List Nat → Option Nat
  | [], substr => if substr = [] then some 0 else none
  | c :: s, substr =>
    if HasPrefix (c :: s) substr then some 0
    else (Index s substr).map (fun i => i + 1)

/-- `strings.Contains(s, substr)`: `strings.Index(s, substr) >= 0`. -/
def Contains (s substr : List Nat) : Bool :=
  (Index s substr).isSome

/-- `strings.SplitN(s, sep, 2)` for a non-empty `sep`: `s` alone when `sep` is
not in `s`, otherwise what precedes and what follows the first `sep`. -/
def SplitN2 (s sep : List Nat) : List (List Nat) :=
  match Index s sep with
  | none => [s]
  | some i => [s.take i, s.drop (i + sep.length)]

/-- The loop of `strings.ReplaceAll(s, old, new)` for a non-empty `old`, with
`fuel` bounding the steps still to take (each step consumes at least one
byte): instances of `old` are replaced from the left, without overlap. -/
def replaceLoop (old new : List Nat) : Nat → List Nat → List Nat
  | 0, s => s
  | _, [] => []
  | fuel + 1, c :: s =>
    if HasPrefix (c :: s) old then new ++ replaceLoop old new fuel ((c :: s).drop old.length)
    else c :: replaceLoop old new fuel s

/-- `strings.ReplaceAll(s, old, new)` for a non-empty `old`. -/
def ReplaceAll (s old new : List Nat) : List Nat :=
  replaceLoop old new s.length s

/-- The head of `Console.Ping`: the path it dials for `uri`. -/
def pingPath (uri : List Nat) : List Nat :=
  if !Contains uri (bytes "tcp://echo") then
    (if uri.length > 0 then uri ++ bytes "->" else uri) ++ bytes "tcp://echo"
  else uri

/-- The test of the first branch of `parseProxyURI`. -/
def proxyPrefixed (target : List Nat) : Bool :=
  HasPrefix target (bytes "tcp://tcp-") || HasPrefix target (bytes "tcp://http-") ||
    HasPrefix target (bytes "tcp-") || HasPrefix target (bytes "http-")

/-- The target of the first and third branch of `parseProxyURI` after its
three trims. -/
def trimTarget (target : List Nat) : List Nat :=
  TrimSuffix (TrimSuffix (TrimPrefix target (bytes "tcp://")) (bytes ":80")) (bytes ":443")

/-- `Console.parseProxyURI(uri, target)`; `none` is the panic of `parts[1]`
when `strings.SplitN` returned a single part. -/
def parseProxyURI (uri target : List Nat) : Option (List Nat) :=
  let targetURI := uri
  if proxyPrefixed target then
    let target := trimTarget target
    let parts := SplitN2 target (bytes "-")
    match parts[0]?, parts[1]? with
    | some p0, some p1 =>
      let targetURI := ReplaceAll targetURI (bytes "${HOST}") p1
      some (ReplaceAll targetURI (bytes "${URI}") (p0 ++ bytes "://" ++ p1))
    | _, _ => none
  else if Contains target (bytes ".") then
    let targetURI := ReplaceAll targetURI (bytes "${URI}") target
    some (ReplaceAll targetURI (bytes "${HOST}") (TrimPrefix target (bytes "tcp://")))
  else
    let target := trimTarget target
    let targetURI := ReplaceAll targetURI (bytes "${HOST}") target
    some (ReplaceAll targetURI (bytes "${URI}") (bytes "http://" ++ target))

/-! ### socks5.go: observations on `procConn` -/

/-- The reply `05 rep 00 01 00 00 00 00 00 00` the client receives. -/
def socksReply (rep : Nat) : List Nat :=
  [0x05, rep, 0x00, 0x01, 0x00, 0x00, 0x00, 0x00, 0x00, 0x00]

/-- What the switch of `procConn` hands on, the scratch buffer left out: the
rest of `procConn` reads nothing from the buffer before it overwrites
`buf[0:10]` with the reply. -/
def Request.forget : Request → Request
  | Request.parsed c _ remote port err => Request.parsed c (fun _ => 0) remote port err
  | r => r

/-! ### PendingConn: sequences of Start and Close calls -/

/-- A call of `Start` or of `Close`. -/
inductive GateCall where
  | start
  | close
deriving DecidableEq, Repr

/-- One call on the connection in state `s.1` with `Raw` in state `s.2`;
`none` is a panic. -/
def PendingConn.call {ρ : Type} (io : ReadWriteCloser ρ) (s : PendingConn × ρ) :
    GateCall → Option (PendingConn × ρ)
  | GateCall.start => (s.1.Start).map (fun p => (p, s.2))
  | GateCall.close => (s.1.Close io s.2).map (fun r => (r.1, r.2.1))

/-- A sequence of calls, one after the other; `none` if one of them panics. -/
def PendingConn.calls {ρ : Type} (io : ReadWriteCloser ρ) (s : PendingConn × ρ) :
    List GateCall → Option (PendingConn × ρ)
  | [] => some s
  | c :: cs =>
    match PendingConn.call io s c with
    | none => none
    | some s1 => PendingConn.calls io s1 cs

/-- The state of `Raw` after one `Raw.Close()` for each `Close` of the sequence. -/
def rawAfter {ρ : Type} (io : ReadWriteCloser ρ) (raw : ρ) (cs : List GateCall) : ρ :=
  cs.foldl (fun r c =>
    match c with
    | GateCall.close => (io.Close r).1
    | GateCall.start => r) raw

/-! ### Router: Dial (modelled from the specification) -/

/-- The text of an ASCII byte string, for the names that key bonds. -/
def text (bs : List Nat) : String :=
  String.mk (bs.map Char.ofNat)

/-- Modelled from the spec: the head of a path, "a `->`-separated list of
hops", and the name of a hop, which "may be a peer name" or "`name@remainder`";
the path parser is in the router source, which is missing. -/
def headName (path : List Nat) : String :=
  text ((SplitN2 ((SplitN2 path (bytes "->")).headD []) (bytes "@")).headD [])

/-- Modelled from the spec: the tail of a path, what follows the first `->`;
the path parser is in the router source, which is missing. -/
def pathTail (path : List Nat) : List Nat :=
  ((SplitN2 path (bytes "->"))[1]?).getD []

/-- Modelled from the spec: a Pending Dial, "`(origin_chan, origin_sid)` has
been forwarded as `(next_chan, local_sid)` with no `DialBack` yet"; the channel
is named by its bond and its index in the bond, and `origin` is `none` when the
origin is the local caller of `Dial`.  The router source is missing. -/
structure PendingDial where
  bond : String
  index : Nat
  sid : Nat
  origin : Option Endpoint
deriving DecidableEq, Repr

/-- Modelled from the spec: the Router with what `Dial` uses of it, its source
being missing: name, ACL and bonds, the session table, the pending table, the
`sid_alloc` counter, the `used` counter of each channel, and the Dial frames
sent (bond, index, sid, remaining path). -/
structure Node where
  router : Router
  sessions : SessionTable
  pendings : List PendingDial
  sidAlloc : Nat
  used : String → Nat → Nat
  sent : List (String × Nat × Nat × List Nat)

/-- Modelled from the spec: "selection policy: least-used index, ties broken by
lowest index", over the indices of a bond; the bond source is missing. -/
def leastUsed (used : Nat → Nat) : List Nat → Option Nat
  | [] => none
  | i :: rest =>
    match leastUsed used rest with
    | none => some i
    | some j => if used i < used j ∨ (used i = used j ∧ i ≤ j) then some i else some j

/-- Modelled from the spec: `Router.Dial(path, local_rwc)`, whose source is
missing; the result is the router afterwards, the sid and the error (`none` is
nil).  "A `Dial` with empty path returns a Path error"; otherwise the head is
split off and the bond for it looked up, "if absent: channel not found";
otherwise "pick the least-used channel in that bond, allocate a fresh local
sid, record a Pending entry, and forward `Dial{sid, tail}`".  A single hop is
not dialed terminally: the tests dial the path `uri` on a router whose
`DialRaw` accepts it and expect an error. -/
def Dial (node : Node) (path : List Nat) : Node × Nat × Option String :=
  if path = [] then (node, 0, some "path is empty")
  else
    match node.router.bonds.lookup (headName path) with
    | none => (node, 0, some ("channel not found: " ++ headName path))
    | some indices =>
      match leastUsed (node.used (headName path)) indices with
      | none => (node, 0, some ("channel not found: " ++ headName path))
      | some index =>
        ({ node with
            sidAlloc := node.sidAlloc + 1,
            pendings :=
              { bond := headName path, index := index, sid := node.sidAlloc + 1,
                origin := none } :: node.pendings,
            used := fun b i =>
              if b = headName path ∧ i = index then node.used b i + 1 else node.used b i,
            sent := node.sent ++ [(headName path, index, node.sidAlloc + 1, pathTail path)] },
         node.sidAlloc + 1, none)

/-! ## Frame encoding: lemmas -/

theorem copyAt_of_le (dst : List Nat) (off : Nat) (src : List Nat)
    (h : off + src.length ≤ dst.length) :
    copyAt dst off src = dst.take off ++ src ++ dst.drop (off + src.length) := by
  have hs : src.take (dst.length - off) = src := List.take_of_length_le (by omega)
  unfold copyAt
  rw [hs]

theorem copyAt_length (dst : List Nat) (off : Nat) (src : List Nat) (h : off ≤ dst.length) :
    (copyAt dst off src).length = dst.length := by
  unfold copyAt
  simp only [List.length_append, List.length_take, List.length_drop]
  omega

theorem take4_set4 (l : List Nat) (c : Nat) (h : 4 < l.length) :
    (l.set 4 c).take 5 = l.take 4 ++ [c] := by
  match l, h with
  | a0 :: a1 :: a2 :: a3 :: a4 :: rest, _ => simp

theorem writeCmd_some (w : List Nat → Option String) (b : Slice) (cmd sid : Nat)
    (msg : List Nat) (h : msg.length + 13 ≤ b.elems.length) :
    writeCmd w (some b) cmd sid msg =
      some (b.elems.take 4 ++ cmd :: putUint64 sid ++ msg,
            w (b.elems.take 4 ++ cmd :: putUint64 sid ++ msg)) := by
  obtain ⟨elems, spare⟩ := b
  simp only at h
  have hp : (putUint64 sid).length = 8 := rfl
  have h1 : (elems.set 4 cmd).length = elems.length := List.length_set ..
  have h2 : copyAt (elems.set 4 cmd) 5 (putUint64 sid) =
      elems.take 4 ++ [cmd] ++ putUint64 sid ++ (elems.set 4 cmd).drop 13 := by
    rw [copyAt_of_le _ _ _ (by rw [hp, h1]; omega), take4_set4 _ _ (by omega), hp]
  have h3 : (copyAt (elems.set 4 cmd) 5 (putUint64 sid)).length = elems.length := by
    rw [copyAt_length _ _ _ (by omega), h1]
  have h4 : (copyAt (elems.set 4 cmd) 5 (putUint64 sid)).take 13 =
      elems.take 4 ++ [cmd] ++ putUint64 sid := by
    rw [h2]
    apply List.take_left'
    simp [hp]; omega
  have h5 : copyAt (copyAt (elems.set 4 cmd) 5 (putUint64 sid)) 13 msg =
      elems.take 4 ++ [cmd] ++ putUint64 sid ++ msg ++
        (copyAt (elems.set 4 cmd) 5 (putUint64 sid)).drop (13 + msg.length) := by
    rw [copyAt_of_le _ _ _ (by rw [h3]; omega), h4]
  have h6 : (copyAt (copyAt (elems.set 4 cmd) 5 (putUint64 sid)) 13 msg).length =
      elems.length := by
    rw [copyAt_length _ _ _ (by omega), h3]
  have h7 : ((copyAt (copyAt (elems.set 4 cmd) 5 (putUint64 sid)) 13 msg) ++ spare).take
      (msg.length + 13) = elems.take 4 ++ [cmd] ++ putUint64 sid ++ msg := by
    rw [h5, List.append_assoc]
    apply List.take_left'
    simp [hp]; omega
  unfold writeCmd
  simp only []
  rw [if_neg (by omega), if_neg (by rw [h1]; omega), if_neg (by rw [h6]; omega), h7]
  simp

theorem writeCmd_nil (w : List Nat → Option String) (cmd sid : Nat) (msg : List Nat) :
    writeCmd w none cmd sid msg =
      some ([0, 0, 0, 0] ++ cmd :: putUint64 sid ++ msg,
            w ([0, 0, 0, 0] ++ cmd :: putUint64 sid ++ msg)) := by
  have h := writeCmd_some w ⟨List.replicate (msg.length + 13) 0, []⟩ cmd sid msg (by simp)
  have ht : (List.replicate (msg.length + 13) 0).take 4 = [0, 0, 0, 0] := by
    simp [List.take_replicate, List.replicate]
  simp only [ht] at h
  exact h

theorem writeCmd_frame (w : List Nat → Option String) (buffer : Option Slice) (cmd sid : Nat)
    (msg : List Nat) (h : longEnough buffer msg) :
    writeCmd w buffer cmd sid msg =
      some (lengthField buffer ++ cmd :: putUint64 sid ++ msg,
            w (lengthField buffer ++ cmd :: putUint64 sid ++ msg)) := by
  cases buffer with
  | none => exact writeCmd_nil w cmd sid msg
  | some b => exact writeCmd_some w b cmd sid msg h

theorem lengthField_length (buffer : Option Slice) (msg : List Nat) (h : longEnough buffer msg) :
    (lengthField buffer).length = 4 := by
  cases buffer with
  | none => rfl
  | some b =>
    simp only [longEnough] at h
    simp only [lengthField, List.length_take]
    omega

theorem bigEndian_putUint64 (sid : Nat) (h : sid < 2 ^ 64) : bigEndian (putUint64 sid) = sid := by
  simp only [bigEndian, putUint64, List.foldl]
  omega

theorem exists_four (l : List Nat) (h : l.length = 4) : ∃ a b c d, l = [a, b, c, d] := by
  match l, h with
  | [a, b, c, d], _ => exact ⟨a, b, c, d, rfl⟩

theorem decodeFrame_encode (pre : List Nat) (cmd sid : Nat) (msg : List Nat)
    (hpre : pre.length = 4) (h : sid < 2 ^ 64) :
    decodeFrame (pre ++ cmd :: putUint64 sid ++ msg) = (cmd, sid, msg) := by
  obtain ⟨a, b, c, d, rfl⟩ := exists_four pre hpre
  have h1 : ([a, b, c, d] ++ cmd :: putUint64 sid ++ msg).getD 4 0 = cmd := rfl
  have h2 : (([a, b, c, d] ++ cmd :: putUint64 sid ++ msg).drop 5).take 8 = putUint64 sid := by
    simp [putUint64]
  have h3 : ([a, b, c, d] ++ cmd :: putUint64 sid ++ msg).drop 13 = msg := by
    simp [putUint64]
  simp only [decodeFrame, h1, h2, h3, bigEndian_putUint64 sid h]

/-! ## Frame encoding: claims -/

/-- C1 (as stated, refuted): a 13-byte buffer with one spare byte of capacity and
a one-byte payload.  `copy(buffer[13:], msg)` copies nothing, `buffer[:14]`
exposes the stale spare byte, and the frame decodes to the payload `[0]`, not
to the payload `[1]` that was passed. -/
theorem writeCmd_roundtrip_short_buffer :
    ∃ frame, writeCmd (fun _ => none) (some ⟨List.replicate 13 0, [0]⟩) 16 7 [1]
        = some (frame, none) ∧
      decodeFrame frame = (16, 7, [0]) ∧ decodeFrame frame ≠ (16, 7, [1]) :=
  ⟨[0, 0, 0, 0, 16, 0, 0, 0, 0, 0, 0, 0, 7, 0], by decide, by decide, by decide⟩

/-- C1 (amended): for every command byte, every 64-bit session id and every
payload, when the buffer is nil or at least len(msg)+13 bytes long, writeCmd
hands a frame to the writer and decoding that frame (cmd = byte 4, sid =
big-endian value of bytes 5..12, payload = bytes 13 to the end) yields exactly
(cmd, sid, msg). -/
theorem writeCmd_roundtrip (w : List Nat → Option String) (buffer : Option Slice)
    (cmd sid : Nat) (msg : List Nat) (hsid : sid < 2 ^ 64) (hbuf : longEnough buffer msg) :
    ∃ frame, writeCmd w buffer cmd sid msg = some (frame, w frame) ∧
      decodeFrame frame = (cmd, sid, msg) :=
  ⟨_, writeCmd_frame w buffer cmd sid msg hbuf,
    decodeFrame_encode _ cmd sid msg (lengthField_length buffer msg hbuf) hsid⟩

/-- Witness of C1 (amended): a Dial frame for session 1000 with payload "url"
written into a 32-byte buffer. -/
theorem writeCmd_roundtrip_witness :
    ∃ frame, writeCmd (fun _ => none) (some ⟨List.replicate 32 9, []⟩) 48 1000 [117, 114, 108]
        = some (frame, none) ∧
      decodeFrame frame = (48, 1000, [117, 114, 108]) :=
  writeCmd_roundtrip (fun _ => none) (some ⟨List.replicate 32 9, []⟩) 48 1000 [117, 114, 108]
    (by norm_num) (by decide)

/-- C2: for every cmd, sid and msg and every buffer that is nil or at least
len(msg)+13 bytes long, the frame passed to the writer has byte 4 equal to cmd,
bytes 5..12 equal to the bytes of sid most significant first, and bytes 13..
equal to msg; from byte 4 onwards it equals the frame obtained with a nil
buffer; and bytes 0..3 are the buffer's own bytes 0..3 (zero for a nil buffer):
writeCmd stores nothing there. -/
theorem writeCmd_layout (w : List Nat → Option String) (buffer : Option Slice)
    (cmd sid : Nat) (msg : List Nat) (hbuf : longEnough buffer msg) :
    ∃ frame, writeCmd w buffer cmd sid msg = some (frame, w frame) ∧
      frame.getD 4 0 = cmd ∧
      (∀ i, i < 8 → frame.getD (5 + i) 0 = sid / 2 ^ (8 * (7 - i)) % 256) ∧
      frame.drop 13 = msg ∧
      (∃ frame0, writeCmd w none cmd sid msg = some (frame0, w frame0) ∧
        frame.drop 4 = frame0.drop 4) ∧
      frame.take 4 = lengthField buffer := by
  refine ⟨_, writeCmd_frame w buffer cmd sid msg hbuf, ?_⟩
  obtain ⟨a, b, c, d, hpre⟩ := exists_four _ (lengthField_length buffer msg hbuf)
  rw [hpre]
  refine ⟨rfl, ?_, ?_, ⟨_, writeCmd_nil w cmd sid msg, ?_⟩, ?_⟩
  · intro i hi
    interval_cases i <;> simp [putUint64]
  · simp [putUint64]
  · simp
  · simp

/-- Witness of C2: a Dial frame written into a 16-byte buffer of nines. -/
theorem writeCmd_layout_witness :
    ∃ frame, writeCmd (fun _ => none) (some ⟨List.replicate 16 9, []⟩) 48 258 [117, 114, 108]
        = some (frame, none) ∧
      frame.getD 4 0 = 48 ∧
      (∀ i, i < 8 → frame.getD (5 + i) 0 = 258 / 2 ^ (8 * (7 - i)) % 256) ∧
      frame.drop 13 = [117, 114, 108] ∧
      (∃ frame0, writeCmd (fun _ => none) none 48 258 [117, 114, 108] = some (frame0, none) ∧
        frame.drop 4 = frame0.drop 4) ∧
      frame.take 4 = lengthField (some ⟨List.replicate 16 9, []⟩) :=
  writeCmd_layout (fun _ => none) (some ⟨List.replicate 16 9, []⟩) 48 258 [117, 114, 108]
    (by decide)

/-- C3: for every payload msg, the empty payload of a Heartbeat included, a
nil or long enough buffer makes writeCmd hand a frame to the writer, and every
frame writeCmd hands to the writer, whatever the buffer, is exactly len(msg)+13
bytes long: len(msg)+9 bytes follow the 4-byte length field, never fewer than
the minimum 9. -/
theorem writeCmd_frame_length (w : List Nat → Option String) (buffer : Option Slice)
    (cmd sid : Nat) (msg : List Nat) :
    (longEnough buffer msg → (writeCmd w buffer cmd sid msg).isSome = true) ∧
    ∀ frame err, writeCmd w buffer cmd sid msg = some (frame, err) →
      frame.length = msg.length + 13 ∧ frame.length - 4 = msg.length + 9 ∧
        9 ≤ frame.length - 4 := by
  constructor
  · intro h
    rw [writeCmd_frame w buffer cmd sid msg h]
    rfl
  · intro frame err h
    have hl : frame.length = msg.length + 13 := by
      unfold writeCmd at h
      simp only [] at h
      split_ifs at h with h1 h2 h3
      simp only [Option.some.injEq, Prod.mk.injEq] at h
      rw [← h.1, List.length_take, List.length_append]
      omega
    omega

/-- Witness of C3: a Heartbeat (empty payload) written with a nil buffer is a
13-byte frame, 9 bytes after the length field. -/
theorem writeCmd_frame_length_witness :
    (writeCmd (fun _ => none) none 112 0 []).isSome = true ∧
    ∀ frame err, writeCmd (fun _ => none) none 112 0 [] = some (frame, err) →
      frame.length = 13 ∧ frame.length - 4 = 9 ∧ 9 ≤ frame.length - 4 :=
  ⟨(writeCmd_frame_length (fun _ => none) none 112 0 []).1 trivial,
   (writeCmd_frame_length (fun _ => none) none 112 0 []).2⟩

/-! ## PendingConn: lemmas -/

theorem ioAdvance_new_waiting_write (b : List Nat) (pc : IoPc)
    (h : (Thread.write b pc none).waiting = true) :
    (Thread.write b (ioAdvance NewPendingConn pc) none).waiting = true := by
  cases pc <;> simp_all [Thread.waiting, ioAdvance, NewPendingConn]

theorem ioAdvance_new_waiting_read (b : List Nat) (pc : IoPc)
    (h : (Thread.read b pc none).waiting = true) :
    (Thread.read b (ioAdvance NewPendingConn pc) none).waiting = true := by
  cases pc <;> simp_all [Thread.waiting, ioAdvance, NewPendingConn]

theorem gated_run {ρ : Type} (io : ReadWriteCloser ρ) (raw0 : ρ) (s : Sys ρ) (i : Nat)
    (h : Gated raw0 s) : Gated raw0 (s.run io i) := by
  obtain ⟨hp, hr, hc, hk, ht⟩ := h
  unfold Sys.run
  rw [if_neg (by simp [hk])]
  cases hi : s.threads[i]? with
  | none => exact ⟨hp, hr, hc, hk, ht⟩
  | some t =>
    have hmem : t ∈ s.threads := List.getElem?_mem hi
    have hw := ht t hmem
    cases t with
    | write b pc ret =>
      cases ret with
      | some r => cases pc <;> simp [Thread.waiting] at hw
      | none =>
        cases pc with
        | call => simp [Thread.waiting] at hw
        | done => simp [Thread.waiting] at hw
        | test =>
          refine ⟨hp, hr, hc, hk, ?_⟩
          intro t ht2
          rcases List.mem_or_eq_of_mem_set ht2 with h1 | h1
          · exact ht t h1
          · rw [h1, hp]; exact ioAdvance_new_waiting_write b _ hw
        | recv =>
          refine ⟨hp, hr, hc, hk, ?_⟩
          intro t ht2
          rcases List.mem_or_eq_of_mem_set ht2 with h1 | h1
          · exact ht t h1
          · rw [h1, hp]; exact ioAdvance_new_waiting_write b _ hw
    | read b pc ret =>
      cases ret with
      | some r => cases pc <;> simp [Thread.waiting] at hw
      | none =>
        cases pc with
        | call => simp [Thread.waiting] at hw
        | done => simp [Thread.waiting] at hw
        | test =>
          refine ⟨hp, hr, hc, hk, ?_⟩
          intro t ht2
          rcases List.mem_or_eq_of_mem_set ht2 with h1 | h1
          · exact ht t h1
          · rw [h1, hp]; exact ioAdvance_new_waiting_read b _ hw
        | recv =>
          refine ⟨hp, hr, hc, hk, ?_⟩
          intro t ht2
          rcases List.mem_or_eq_of_mem_set ht2 with h1 | h1
          · exact ht t h1
          · rw [h1, hp]; exact ioAdvance_new_waiting_read b _ hw
    | start pc => simp [Thread.waiting] at hw
    | close pc ret => simp [Thread.waiting] at hw

theorem gated_step {ρ : Type} (io : ReadWriteCloser ρ) (raw0 : ρ) (s : Sys ρ) (a : Action)
    (ha : a.isGate = false) (h : Gated raw0 s) : Gated raw0 (s.step io a) := by
  cases a with
  | callStart => simp [Action.isGate] at ha
  | callClose => simp [Action.isGate] at ha
  | run i => exact gated_run io raw0 s i h
  | callWrite b =>
    obtain ⟨hp, hr, hc, hk, ht⟩ := h
    refine ⟨hp, hr, hc, hk, ?_⟩
    intro t ht2
    simp only [Sys.step, List.mem_append, List.mem_singleton] at ht2
    rcases ht2 with h1 | h1
    · exact ht t h1
    · rw [h1]; rfl
  | callRead b =>
    obtain ⟨hp, hr, hc, hk, ht⟩ := h
    refine ⟨hp, hr, hc, hk, ?_⟩
    intro t ht2
    simp only [Sys.step, List.mem_append, List.mem_singleton] at ht2
    rcases ht2 with h1 | h1
    · exact ht t h1
    · rw [h1]; rfl

theorem gated_exec {ρ : Type} (io : ReadWriteCloser ρ) (raw0 : ρ) (acts : List Action) :
    ∀ s : Sys ρ, Gated raw0 s → (∀ a ∈ acts, a.isGate = false) →
      Gated raw0 (s.exec io acts) := by
  induction acts with
  | nil => intro s h _; exact h
  | cons a rest ih =>
    intro s h hg
    have h1 := gated_step io raw0 s a (hg a (List.mem_cons_self a rest)) h
    exact ih (s.step io a) h1 (fun b hb => hg b (List.mem_cons_of_mem a hb))

theorem start_not_pending (p p1 : PendingConn) (h : p.Start = some p1) : p1.pending ≠ 1 := by
  unfold PendingConn.Start PendingConn.casPending at h
  by_cases hp : p.pending = 1
  · simp only [hp, if_true] at h
    unfold PendingConn.closeWc at h
    cases hw : p.wc <;> simp [hw] at h
    rw [← h]; simp
  · simp only [hp, if_false, Option.some.injEq] at h
    rw [← h]; exact hp

theorem countP_set_of_getElem? {α : Type} (q : α → Bool) (t1 : α) :
    ∀ (l : List α) (i : Nat) (t : α), l[i]? = some t →
      (l.set i t1).countP q + (if q t then 1 else 0) = l.countP q + (if q t1 then 1 else 0) := by
  intro l
  induction l with
  | nil => intro i t h; simp at h
  | cons a rest ih =>
    intro i t h
    cases i with
    | zero =>
      simp only [List.getElem?_cons_zero, Option.some.injEq] at h
      subst h
      simp only [List.set_cons_zero, List.countP_cons]
      omega
    | succ j =>
      simp only [List.getElem?_cons_succ] at h
      have := ih j t h
      simp only [List.set_cons_succ, List.countP_cons]
      omega

theorem sound_run {ρ : Type} (io : ReadWriteCloser ρ) (s : Sys ρ) (i : Nat)
    (h : Sound s) : Sound (s.run io i) := by
  obtain ⟨hk, hs⟩ := h
  unfold Sys.run
  rw [if_neg (by simp [hk])]
  cases hi : s.threads[i]? with
  | none => exact ⟨hk, hs⟩
  | some t =>
    have hmem : t ∈ s.threads := List.getElem?_mem hi
    have hpc : Thread.atCloseWc t = true → 0 < s.threads.countP Thread.atCloseWc :=
      fun ht => List.countP_pos_iff.mpr ⟨t, hmem, ht⟩
    have hpq : Thread.pastCas t = true → 0 < s.threads.countP Thread.pastCas :=
      fun ht => List.countP_pos_iff.mpr ⟨t, hmem, ht⟩
    have hc : ∀ t1, (s.threads.set i t1).countP Thread.atCloseWc =
        s.threads.countP Thread.atCloseWc + (if Thread.atCloseWc t1 then 1 else 0) -
          (if Thread.atCloseWc t then 1 else 0) := by
      intro t1
      have := countP_set_of_getElem? Thread.atCloseWc t1 s.threads i t hi
      omega
    have hq : ∀ t1, (s.threads.set i t1).countP Thread.pastCas =
        s.threads.countP Thread.pastCas + (if Thread.pastCas t1 then 1 else 0) -
          (if Thread.pastCas t then 1 else 0) := by
      intro t1
      have := countP_set_of_getElem? Thread.pastCas t1 s.threads i t hi
      omega
    rcases t with ⟨b, pc, ret⟩ | ⟨b, pc, ret⟩ | pc | ⟨pc, ret⟩ <;> cases pc <;>
      simp only [Sound, hk, true_and, PendingConn.casPending, PendingConn.closeWc, ioAdvance] <;>
      rcases hs with ⟨h1, h2, h3, h4⟩ | ⟨h1, h2, h4⟩ | ⟨h1, h2, h4⟩ <;>
      simp only [h1, h2, if_true, if_false, one_ne_zero, zero_ne_one, ite_true, ite_false] <;>
      simp only [Thread.atCloseWc, Thread.pastCas, if_true, if_false, ite_true, ite_false,
        Bool.false_eq_true, forall_true_left, false_implies] at hpc hpq hc hq <;>
      simp only [hc, hq, Thread.atCloseWc, Thread.pastCas, if_true, if_false,
        Bool.false_eq_true, true_and, false_and, and_true, and_false, or_false, false_or,
        reduceCtorEq] <;>
      omega

theorem sound_step {ρ : Type} (io : ReadWriteCloser ρ) (s : Sys ρ) (a : Action)
    (h : Sound s) : Sound (s.step io a) := by
  cases a with
  | run i => exact sound_run io s i h
  | callWrite b => simpa [Sound, Sys.step, Thread.pastCas, Thread.atCloseWc] using h
  | callRead b => simpa [Sound, Sys.step, Thread.pastCas, Thread.atCloseWc] using h
  | callStart => simpa [Sound, Sys.step, Thread.pastCas, Thread.atCloseWc] using h
  | callClose => simpa [Sound, Sys.step, Thread.pastCas, Thread.atCloseWc] using h

theorem sound_exec {ρ : Type} (io : ReadWriteCloser ρ) (acts : List Action) :
    ∀ s : Sys ρ, Sound s → Sound (s.exec io acts) := by
  induction acts with
  | nil => intro s h; exact h
  | cons a rest ih => intro s h; exact ih (s.step io a) (sound_step io s a h)

theorem sound_init {ρ : Type} (raw : ρ) : Sound (Sys.init raw) :=
  ⟨rfl, Or.inl ⟨rfl, rfl, rfl, rfl⟩⟩

theorem sound_started {ρ : Type} (s : Sys ρ) (h : Sound s)
    (hs : Thread.start GatePc.done ∈ s.threads) : s.p.pending = 0 := by
  have hpos : 0 < s.threads.countP Thread.pastCas :=
    List.countP_pos_iff.mpr ⟨_, hs, rfl⟩
  rcases h.2 with ⟨_, _, h3, _⟩ | ⟨h1, _, _⟩ | ⟨h1, _, _⟩
  · omega
  · exact h1
  · exact h1

theorem write_after_start {ρ : Type} (io : ReadWriteCloser ρ) (s : Sys ρ) (b : List Nat)
    (hk : s.panicked = false) (hp : s.p.pending = 0) :
    (s.exec io [Action.callWrite b, Action.run s.threads.length,
        Action.run s.threads.length]).threads[s.threads.length]? =
      some (Thread.write b IoPc.done (some (io.Write s.raw b).2)) ∧
    (s.exec io [Action.callWrite b, Action.run s.threads.length,
        Action.run s.threads.length]).raw = (io.Write s.raw b).1 := by
  simp [Sys.exec, Sys.step, Sys.run, hk, hp, ioAdvance]

theorem read_after_start {ρ : Type} (io : ReadWriteCloser ρ) (s : Sys ρ) (b : List Nat)
    (hk : s.panicked = false) (hp : s.p.pending = 0) :
    (s.exec io [Action.callRead b, Action.run s.threads.length,
        Action.run s.threads.length]).threads[s.threads.length]? =
      some (Thread.read b IoPc.done (some (io.Read s.raw b).2)) ∧
    (s.exec io [Action.callRead b, Action.run s.threads.length,
        Action.run s.threads.length]).raw = (io.Read s.raw b).1 := by
  simp [Sys.exec, Sys.step, Sys.run, hk, hp, ioAdvance]

/-! ## PendingConn: claims -/

/-- The schedule of `TestPendingConn`: a `Write` of ten bytes is entered and
waits at `<-p.wc`, `Start` runs, and the `Write` then reaches `Raw` and returns
what `Raw.Write` returned. -/
theorem pendingConn_test_schedule :
    ((Sys.init 0).exec echoRaw
      [Action.callWrite (List.replicate 10 0), Action.run 0, Action.run 0, Action.run 0]).threads
        = [Thread.write (List.replicate 10 0) IoPc.recv none] ∧
    ((Sys.init 0).exec echoRaw
      [Action.callWrite (List.replicate 10 0), Action.run 0, Action.run 0, Action.run 0,
       Action.callStart, Action.run 1, Action.run 1, Action.run 0, Action.run 0]).threads
        = [Thread.write (List.replicate 10 0) IoPc.done (some (10, none)),
           Thread.start GatePc.done] ∧
    ((Sys.init 0).exec echoRaw
      [Action.callWrite (List.replicate 10 0), Action.run 0, Action.run 0, Action.run 0,
       Action.callStart, Action.run 1, Action.run 1, Action.run 0, Action.run 0]).rawCalls = 1 := by
  refine ⟨by decide, by decide, by decide⟩


/-- C8: on a PendingConn returned by NewPendingConn, under every schedule of
Write and Read calls in which neither Start nor Close has been entered, no call
has reached Raw (its state is untouched and nothing has been called on it) and
every Write and Read call waits; once Start has returned, under whatever
schedule, a Write(b) or Read(b) call runs through without waiting and returns
exactly what Raw.Write(b) or Raw.Read(b) returns. -/
theorem pendingConn_gates {ρ : Type} (io : ReadWriteCloser ρ) (raw : ρ) :
    (∀ acts : List Action, (∀ a ∈ acts, a.isGate = false) →
      ((Sys.init raw).exec io acts).raw = raw ∧
      ((Sys.init raw).exec io acts).rawCalls = 0 ∧
      ∀ t ∈ ((Sys.init raw).exec io acts).threads, t.waiting = true) ∧
    (∀ (p p1 : PendingConn) (b : List Nat), p.Start = some p1 →
      p1.Write io raw b = Call.returned (io.Write raw b) ∧
      p1.Read io raw b = Call.returned (io.Read raw b)) ∧
    (∀ (acts : List Action) (b : List Nat),
      Thread.start GatePc.done ∈ ((Sys.init raw).exec io acts).threads →
      (((Sys.init raw).exec io acts).exec io
          [Action.callWrite b, Action.run ((Sys.init raw).exec io acts).threads.length,
           Action.run ((Sys.init raw).exec io acts).threads.length]).threads[
            ((Sys.init raw).exec io acts).threads.length]? =
        some (Thread.write b IoPc.done
          (some (io.Write ((Sys.init raw).exec io acts).raw b).2)) ∧
      (((Sys.init raw).exec io acts).exec io
          [Action.callRead b, Action.run ((Sys.init raw).exec io acts).threads.length,
           Action.run ((Sys.init raw).exec io acts).threads.length]).threads[
            ((Sys.init raw).exec io acts).threads.length]? =
        some (Thread.read b IoPc.done
          (some (io.Read ((Sys.init raw).exec io acts).raw b).2))) := by
  refine ⟨?_, ?_, ?_⟩
  · intro acts hg
    have h0 : Gated raw (Sys.init raw) := ⟨rfl, rfl, rfl, rfl, by intro t ht; cases ht⟩
    obtain ⟨_, hr, hc, _, ht⟩ := gated_exec io raw acts (Sys.init raw) h0 hg
    exact ⟨hr, hc, ht⟩
  · intro p p1 b h
    have hp := start_not_pending p p1 h
    simp [PendingConn.Write, PendingConn.Read, hp]
  · intro acts b hs
    have hsound := sound_exec io acts (Sys.init raw) (sound_init raw)
    have hp := sound_started _ hsound hs
    exact ⟨(write_after_start io _ b hsound.1 hp).1, (read_after_start io _ b hsound.1 hp).1⟩

/-! ## SOCKS5: lemmas -/

theorem fullBuf_append (c : Conn) (buf : Buf) (off : Nat) (a r : List Nat)
    (h : c.input = a ++ r) :
    fullBuf c buf off a.length = ({ c with input := r }, buf.store off a, none) := by
  simp [fullBuf, h]

theorem fullBuf_short (c : Conn) (buf : Buf) (off length : Nat) (h : c.input.length < length) :
    fullBuf c buf off length = ({ c with input := [] }, buf.store off c.input, some c.readErr) := by
  simp [fullBuf, Nat.not_le.mpr h]

theorem store_apply_in (buf : Buf) (off : Nat) (data : List Nat) (j : Nat)
    (h1 : off ≤ j) (h2 : j < off + data.length) :
    buf.store off data j = data.getD (j - off) 0 := by
  simp [Buf.store, h1, h2]

theorem store_apply_out (buf : Buf) (off : Nat) (data : List Nat) (j : Nat)
    (h : j < off ∨ off + data.length ≤ j) :
    buf.store off data j = buf j := by
  unfold Buf.store
  rw [if_neg (by omega)]

theorem procConn_bad_method_version (Dailer : List Nat → Option String) (v n : Nat)
    (rest : List Nat) (readErr : String) (writeErr : Nat → Option String) (hv : v ≠ 0x05) :
    (procConn Dailer (Conn.accepted (v :: n :: rest) readErr writeErr)).err = some (verError v) ∧
    (procConn Dailer (Conn.accepted (v :: n :: rest) readErr writeErr)).conn.log =
      [Event.close] ∧
    (procConn Dailer (Conn.accepted (v :: n :: rest) readErr writeErr)).panicked = false := by
  have h := fullBuf_append (Conn.accepted (v :: n :: rest) readErr writeErr) (fun _ => 0) 0
    [v, n] rest rfl
  simp only [List.length_cons, List.length_nil] at h
  unfold procConn
  simp only [h]
  have h0 : Buf.store (fun _ => 0) 0 [v, n] 0 = v := by simp [Buf.store]
  simp [h0, hv, Result.ret, Conn.Close, Conn.accepted]

theorem fullBuf_mk (a r : List Nat) (readErr : String) (writeErr : Nat → Option String)
    (writes : Nat) (log : List Event) (buf : Buf) (off n : Nat) (hn : n = a.length) :
    fullBuf { input := a ++ r, readErr := readErr, writeErr := writeErr, writes := writes,
              log := log } buf off n =
      ({ input := r, readErr := readErr, writeErr := writeErr, writes := writes, log := log },
       buf.store off a, none) := by
  subst hn
  simp [fullBuf]

theorem procConn_negotiation (Dailer : List Nat → Option String) (methods tail : List Nat)
    (readErr : String) (writeErr : Nat → Option String) (hw : writeErr 0 = none) :
    procConn Dailer (Conn.accepted (negotiation methods ++ tail) readErr writeErr) =
      procRequest Dailer (Conn.negotiated tail readErr writeErr)
        (Buf.store (Buf.store (fun _ => 0) 0 [0x05, methods.length]) 2 methods) := by
  have h1 := fullBuf_mk [0x05, methods.length] (methods ++ tail) readErr writeErr 0 []
    (fun _ => 0) 0 2 rfl
  have h0 : Buf.store (fun _ => 0) 0 [0x05, methods.length] 0 = 0x05 := by simp [Buf.store]
  have h01 : Buf.store (fun _ => 0) 0 [0x05, methods.length] 1 = methods.length := by
    simp [Buf.store]
  have h2 := fullBuf_mk methods tail readErr writeErr 0 []
    (Buf.store (fun _ => 0) 0 [0x05, methods.length]) 2 methods.length rfl
  have hin : negotiation methods ++ tail = [0x05, methods.length] ++ (methods ++ tail) := by
    simp [negotiation]
  unfold procConn Conn.accepted
  rw [hin]
  simp only [h1, h0, h01, h2]
  simp [Conn.Write, hw, Conn.negotiated]

theorem procRequest_bad_version (Dailer : List Nat → Option String) (buf : Buf)
    (v x1 x2 x3 x4 : Nat) (rest : List Nat) (readErr : String)
    (writeErr : Nat → Option String) (hv : v ≠ 0x05) :
    procRequest Dailer (Conn.negotiated ([v, x1, x2, x3, x4] ++ rest) readErr writeErr) buf =
      Result.ret (Conn.negotiated rest readErr writeErr) (some (verError v)) none := by
  have h1 := fullBuf_mk [v, x1, x2, x3, x4] rest readErr writeErr 1 [Event.write [0x05, 0x00]]
    buf 0 5 rfl
  have h0 : Buf.store buf 0 [v, x1, x2, x3, x4] 0 = v := by simp [Buf.store]
  unfold procRequest Conn.negotiated
  simp only [h1, h0]
  simp [hv]

theorem procRequest_unsupported (Dailer : List Nat → Option String) (buf : Buf)
    (cmd rsv atyp x : Nat) (rest : List Nat) (readErr : String)
    (writeErr : Nat → Option String) (h1 : atyp ≠ 0x01) (h3 : atyp ≠ 0x03) :
    procRequest Dailer (Conn.negotiated ([0x05, cmd, rsv, atyp, x] ++ rest) readErr writeErr)
        buf =
      Result.ret (Conn.negotiated rest readErr writeErr) (some (atypError atyp)) none := by
  have hf := fullBuf_mk [0x05, cmd, rsv, atyp, x] rest readErr writeErr 1
    [Event.write [0x05, 0x00]] buf 0 5 rfl
  have h0 : Buf.store buf 0 [0x05, cmd, rsv, atyp, x] 0 = 0x05 := by simp [Buf.store]
  have h03 : Buf.store buf 0 [0x05, cmd, rsv, atyp, x] 3 = atyp := by simp [Buf.store]
  unfold procRequest Conn.negotiated
  simp only [hf, h0]
  simp [parseRequest, h03, h1, h3]

theorem procRequest_ipv4 (Dailer : List Nat → Option String) (buf : Buf)
    (cmd rsv a b c d hi lo : Nat) (rest : List Nat) (readErr : String)
    (writeErr : Nat → Option String) :
    ∃ buf5, procRequest Dailer
        (Conn.negotiated ([0x05, cmd, rsv, 0x01, a, b, c, d, hi, lo] ++ rest) readErr writeErr)
        buf =
      dialRemote Dailer (Conn.negotiated rest readErr writeErr) buf5
        (bytes (fmtV a ++ "." ++ fmtV b ++ "." ++ fmtV c ++ "." ++ fmtV d))
        ((hi * 256 + lo) % 65536) := by
  have hf := fullBuf_mk [0x05, cmd, rsv, 0x01, a] ([b, c, d, hi, lo] ++ rest) readErr writeErr 1
    [Event.write [0x05, 0x00]] buf 0 5 rfl
  have hg := fullBuf_mk [b, c, d, hi, lo] rest readErr writeErr 1
    [Event.write [0x05, 0x00]] (Buf.store buf 0 [0x05, cmd, rsv, 0x01, a]) 5 5 rfl
  have h0 : Buf.store buf 0 [0x05, cmd, rsv, 0x01, a] 0 = 0x05 := by simp [Buf.store]
  have h03 : Buf.store buf 0 [0x05, cmd, rsv, 0x01, a] 3 = 0x01 := by simp [Buf.store]
  refine ⟨Buf.store (Buf.store buf 0 [0x05, cmd, rsv, 0x01, a]) 5 [b, c, d, hi, lo], ?_⟩
  unfold procRequest Conn.negotiated
  have hin : [0x05, cmd, rsv, 0x01, a, b, c, d, hi, lo] ++ rest =
      [0x05, cmd, rsv, 0x01, a] ++ ([b, c, d, hi, lo] ++ rest) := rfl
  rw [hin]
  simp only [hf, h0]
  simp only [parseRequest, h03, hg]
  simp [Buf.store]

theorem slice_store (buf : Buf) (off : Nat) (a b : List Nat) :
    (Buf.store buf off (a ++ b)).slice off (off + a.length) = a := by
  apply List.ext_getElem
  · simp [Buf.slice]
  · intro k h1 h2
    simp only [Buf.slice, List.getElem_map, List.getElem_range]
    rw [store_apply_in _ _ _ _ (by omega) (by simp; omega)]
    simp [List.getD_eq_getElem?_getD, List.getElem?_append_left h2, List.getElem?_eq_getElem h2]

theorem getD_append_length (a : List Nat) (x : Nat) (t : List Nat) :
    (a ++ x :: t).getD a.length 0 = x := by
  induction a with
  | nil => rfl
  | cons y ys ih => simpa using ih

theorem getD_append_length_succ (a : List Nat) (x y : Nat) (t : List Nat) :
    (a ++ x :: y :: t).getD (a.length + 1) 0 = y := by
  induction a with
  | nil => rfl
  | cons z zs ih => simpa using ih

theorem procRequest_domain (Dailer : List Nat → Option String) (buf : Buf)
    (cmd rsv hi lo : Nat) (domain rest : List Nat) (readErr : String)
    (writeErr : Nat → Option String) (hlen : domain.length ≤ 249) :
    ∃ buf5, procRequest Dailer
        (Conn.negotiated ([0x05, cmd, rsv, 0x03, domain.length] ++ (domain ++ [hi, lo]) ++ rest)
          readErr writeErr) buf =
      dialRemote Dailer (Conn.negotiated rest readErr writeErr) buf5 domain
        ((hi * 256 + lo) % 65536) := by
  have hf := fullBuf_mk [0x05, cmd, rsv, 0x03, domain.length] ((domain ++ [hi, lo]) ++ rest)
    readErr writeErr 1 [Event.write [0x05, 0x00]] buf 0 5 rfl
  have hg := fullBuf_mk (domain ++ [hi, lo]) rest readErr writeErr 1
    [Event.write [0x05, 0x00]] (Buf.store buf 0 [0x05, cmd, rsv, 0x03, domain.length]) 5
    ((domain.length + 2) % 256) (by simp; omega)
  have h0 : Buf.store buf 0 [0x05, cmd, rsv, 0x03, domain.length] 0 = 0x05 := by
    simp [Buf.store]
  have h03 : Buf.store buf 0 [0x05, cmd, rsv, 0x03, domain.length] 3 = 0x03 := by
    simp [Buf.store]
  have h04 : Buf.store buf 0 [0x05, cmd, rsv, 0x03, domain.length] 4 = domain.length := by
    simp [Buf.store]
  have h54 : Buf.store (Buf.store buf 0 [0x05, cmd, rsv, 0x03, domain.length]) 5
      (domain ++ [hi, lo]) 4 = domain.length := by
    rw [store_apply_out _ _ _ _ (by omega), h04]
  have hm5 : (domain.length + 5) % 256 = 5 + domain.length := by omega
  have hm6 : (domain.length + 6) % 256 = 5 + (domain.length + 1) := by omega
  have hhi : Buf.store (Buf.store buf 0 [0x05, cmd, rsv, 0x03, domain.length]) 5
      (domain ++ [hi, lo]) (5 + domain.length) = hi := by
    rw [store_apply_in _ _ _ _ (by omega) (by simp)]
    rw [Nat.add_sub_cancel_left]
    exact getD_append_length domain hi [lo]
  have hlo : Buf.store (Buf.store buf 0 [0x05, cmd, rsv, 0x03, domain.length]) 5
      (domain ++ [hi, lo]) (5 + (domain.length + 1)) = lo := by
    rw [store_apply_in _ _ _ _ (by omega) (by simp)]
    rw [Nat.add_sub_cancel_left]
    exact getD_append_length_succ domain hi lo []
  refine ⟨Buf.store (Buf.store buf 0 [0x05, cmd, rsv, 0x03, domain.length]) 5
    (domain ++ [hi, lo]), ?_⟩
  unfold procRequest Conn.negotiated
  rw [List.append_assoc]
  simp only [hf, h0]
  simp only [parseRequest, h03, h04, hg, h54, hm5, hm6, hhi, hlo, slice_store]
  simp

theorem dialRemote_dailed (Dailer : List Nat → Option String) (c : Conn) (buf : Buf)
    (remote : List Nat) (port : Nat) :
    (dialRemote Dailer c buf remote port).dailed =
      (Result.ret c none none).dailed ++ [remote ++ bytes ":" ++ bytes (fmtV port)] ∧
    (dialRemote Dailer c buf remote port).panicked = false := by
  unfold dialRemote
  simp only []
  generalize remote ++ bytes ":" ++ bytes (fmtV port) = uri
  cases hd : Dailer uri with
  | some e =>
    simp [hd, Result.dailed, Result.ret, PendingConn.Close, PendingConn.casPending,
      PendingConn.closeWc, NewPendingConn, Conn.rwc, Conn.Close, Conn.Write, List.filterMap_append]
  | none =>
    cases hw : c.writeErr c.writes with
    | none =>
      simp [hd, hw, Result.dailed, Result.ret, PendingConn.Start, PendingConn.casPending,
        PendingConn.closeWc, NewPendingConn, Conn.Write, List.filterMap_append]
    | some e =>
      simp [hd, hw, Result.dailed, Result.ret, PendingConn.Close, PendingConn.casPending,
        PendingConn.closeWc, NewPendingConn, Conn.rwc, Conn.Close, Conn.Write,
        List.filterMap_append]


theorem putUint16_value (port : Nat) (h : port < 65536) :
    (port / 2 ^ 8 % 256 * 256 + port % 256) % 65536 = port := by
  omega

/-- Domain requests of at most 249 bytes are dialed as sent: `Dailer` is called
exactly once with `<domain>:<port>`. -/
theorem procConn_domain (Dailer : List Nat → Option String) (methods : List Nat)
    (cmd port : Nat) (domain rest : List Nat) (readErr : String)
    (writeErr : Nat → Option String) (hlen : domain.length ≤ 249) (hport : port < 65536)
    (hw : writeErr 0 = none) :
    (procConn Dailer (Conn.accepted (negotiation methods ++ (requestDomain cmd domain port ++ rest))
      readErr writeErr)).dailed = [domain ++ bytes ":" ++ bytes (fmtV port)] ∧
    (procConn Dailer (Conn.accepted (negotiation methods ++ (requestDomain cmd domain port ++ rest))
      readErr writeErr)).panicked = false := by
  rw [procConn_negotiation Dailer methods _ readErr writeErr hw]
  have hm : domain.length % 256 = domain.length := by omega
  obtain ⟨buf5, h⟩ := procRequest_domain Dailer
    (Buf.store (Buf.store (fun _ => 0) 0 [0x05, methods.length]) 2 methods)
    cmd 0x00 (port / 2 ^ 8 % 256) (port % 256) domain rest readErr writeErr hlen
  have hin : requestDomain cmd domain port ++ rest =
      [0x05, cmd, 0x00, 0x03, domain.length] ++
        (domain ++ [port / 2 ^ 8 % 256, port % 256]) ++ rest := by
    simp [requestDomain, putUint16, hm]
  rw [hin, h, putUint16_value port hport]
  have hd := dialRemote_dailed Dailer (Conn.negotiated rest readErr writeErr) buf5 domain port
  refine ⟨?_, hd.2⟩
  rw [hd.1]
  simp [Result.dailed, Result.ret, Conn.negotiated]

/-! ## SOCKS5: claims -/

/-- C4 (code evaluated at the failing input): after the negotiation `05 01 00`,
the request for a domain of 250 bytes `a` and port 80 makes `procConn` call
`Dailer` with port 5, not 80: `buf[4]+6` wraps to 0 in byte arithmetic and the
low port byte is read from `buf[0]`, which holds 0x05.  With 251 bytes
`buf[4]+5` wraps to 0, `buf[5:0]` panics, and `Dailer` is never called. -/
theorem procConn_domain_250 :
    (procConn (fun _ => none)
      (Conn.client (negotiation [0] ++ requestDomain 1 (List.replicate 250 97) 80))).dailed
        = [List.replicate 250 97 ++ bytes ":5"] ∧
    (procConn (fun _ => none)
      (Conn.client (negotiation [0] ++ requestDomain 1 (List.replicate 250 97) 80))).dailed
        ≠ [List.replicate 250 97 ++ bytes ":80"] ∧
    (procConn (fun _ => none)
      (Conn.client (negotiation [0] ++ requestDomain 1 (List.replicate 251 97) 80))).panicked
        = true ∧
    (procConn (fun _ => none)
      (Conn.client (negotiation [0] ++ requestDomain 1 (List.replicate 251 97) 80))).dailed
        = [] := by
  set_option maxRecDepth 100000 in
  refine ⟨by decide, by decide, by decide, by decide⟩

/-- C5: for every four address bytes a, b, c, d and every port below 65536,
when the client completes the method negotiation and sends the request
05 cmd 00 01 a b c d port-hi port-lo, procConn calls Dailer exactly once, with
the uri "a.b.c.d:port" in decimal, and does not panic; the port parsed from
port-hi and port-lo is the port that PutUint16 encoded. -/
theorem procConn_ipv4 (Dailer : List Nat → Option String) (methods : List Nat)
    (cmd a b c d port : Nat) (rest : List Nat) (readErr : String)
    (writeErr : Nat → Option String) (hport : port < 65536) (hw : writeErr 0 = none) :
    (procConn Dailer (Conn.accepted (negotiation methods ++ (requestIPv4 cmd a b c d port ++ rest))
      readErr writeErr)).dailed =
        [bytes (fmtV a ++ "." ++ fmtV b ++ "." ++ fmtV c ++ "." ++ fmtV d) ++ bytes ":" ++
          bytes (fmtV port)] ∧
    (procConn Dailer (Conn.accepted (negotiation methods ++ (requestIPv4 cmd a b c d port ++ rest))
      readErr writeErr)).panicked = false ∧
    (bigEndian (putUint16 port)) % 65536 = port := by
  rw [procConn_negotiation Dailer methods _ readErr writeErr hw]
  obtain ⟨buf5, h⟩ := procRequest_ipv4 Dailer
    (Buf.store (Buf.store (fun _ => 0) 0 [0x05, methods.length]) 2 methods)
    cmd 0x00 a b c d (port / 2 ^ 8 % 256) (port % 256) rest readErr writeErr
  have hin : requestIPv4 cmd a b c d port ++ rest =
      [0x05, cmd, 0x00, 0x01, a, b, c, d, port / 2 ^ 8 % 256, port % 256] ++ rest := by
    simp [requestIPv4, putUint16]
  rw [hin, h, putUint16_value port hport]
  have hd := dialRemote_dailed Dailer (Conn.negotiated rest readErr writeErr) buf5
    (bytes (fmtV a ++ "." ++ fmtV b ++ "." ++ fmtV c ++ "." ++ fmtV d)) port
  refine ⟨?_, hd.2, ?_⟩
  · rw [hd.1]
    simp [Result.dailed, Result.ret, Conn.negotiated]
  · simp only [bigEndian, putUint16, List.foldl]
    omega

/-- Witness of C5: the request of the test suite, address 0.0.0.0 port 80 after
the negotiation 05 01 00. -/
theorem procConn_ipv4_witness :
    (procConn (fun _ => none) (Conn.accepted (negotiation [0] ++ (requestIPv4 1 0 0 0 0 80 ++ []))
      "EOF" (fun _ => none))).dailed =
        [bytes (fmtV 0 ++ "." ++ fmtV 0 ++ "." ++ fmtV 0 ++ "." ++ fmtV 0) ++ bytes ":" ++
          bytes (fmtV 80)] ∧
    (procConn (fun _ => none) (Conn.accepted (negotiation [0] ++ (requestIPv4 1 0 0 0 0 80 ++ []))
      "EOF" (fun _ => none))).panicked = false ∧
    (bigEndian (putUint16 80)) % 65536 = 80 :=
  procConn_ipv4 (fun _ => none) [0] 1 0 0 0 0 80 [] "EOF" (fun _ => none) (by decide) rfl

/-- C6: for every SOCKS5 request (version byte 0x05, sent after a completed
method negotiation, at least one byte after the address-type byte) whose
address-type byte is neither 0x01 nor 0x03, procConn ends with the error
"ATYP n is not supported" (n in decimal), never calls Dailer, and closes the
client connection: after the method reply the only call made is conn.Close. -/
theorem procConn_unsupported_atyp (Dailer : List Nat → Option String) (methods : List Nat)
    (cmd rsv atyp x : Nat) (rest : List Nat) (readErr : String)
    (writeErr : Nat → Option String) (h1 : atyp ≠ 0x01) (h3 : atyp ≠ 0x03)
    (hw : writeErr 0 = none) :
    (procConn Dailer (Conn.accepted (negotiation methods ++ ([0x05, cmd, rsv, atyp, x] ++ rest))
      readErr writeErr)).err = some ("ATYP " ++ fmtV atyp ++ " is not supported") ∧
    (procConn Dailer (Conn.accepted (negotiation methods ++ ([0x05, cmd, rsv, atyp, x] ++ rest))
      readErr writeErr)).dailed = [] ∧
    (procConn Dailer (Conn.accepted (negotiation methods ++ ([0x05, cmd, rsv, atyp, x] ++ rest))
      readErr writeErr)).conn.log = [Event.write [0x05, 0x00], Event.close] ∧
    (procConn Dailer (Conn.accepted (negotiation methods ++ ([0x05, cmd, rsv, atyp, x] ++ rest))
      readErr writeErr)).panicked = false := by
  rw [procConn_negotiation Dailer methods _ readErr writeErr hw,
    procRequest_unsupported Dailer _ cmd rsv atyp x rest readErr writeErr h1 h3]
  simp [Result.ret, Result.dailed, Conn.Close, Conn.negotiated, atypError]

/-- Witness of C6: the IPv6 request of the test suite (`proxDialIPv6`): address
type 0x04, sixteen zero bytes of which the port overwrites two, port 80. -/
theorem procConn_unsupported_atyp_witness :
    (procConn (fun _ => none) (Conn.accepted (negotiation [0] ++
      ([0x05, 1, 0, 4, 0] ++ [0, 0, 0, 0, 80])) "EOF" (fun _ => none))).err
        = some ("ATYP " ++ fmtV 4 ++ " is not supported") ∧
    (procConn (fun _ => none) (Conn.accepted (negotiation [0] ++
      ([0x05, 1, 0, 4, 0] ++ [0, 0, 0, 0, 80])) "EOF" (fun _ => none))).dailed = [] ∧
    (procConn (fun _ => none) (Conn.accepted (negotiation [0] ++
      ([0x05, 1, 0, 4, 0] ++ [0, 0, 0, 0, 80])) "EOF" (fun _ => none))).conn.log
        = [Event.write [0x05, 0x00], Event.close] ∧
    (procConn (fun _ => none) (Conn.accepted (negotiation [0] ++
      ([0x05, 1, 0, 4, 0] ++ [0, 0, 0, 0, 80])) "EOF" (fun _ => none))).panicked = false :=
  procConn_unsupported_atyp (fun _ => none) [0] 1 0 4 0 [0, 0, 0, 0, 80] "EOF" (fun _ => none)
    (by decide) (by decide) rfl

/-- C7 (as stated, refuted): the client sends the single byte 04 and closes.
Its first byte is not 0x05, yet `procConn` ends with the read error of
`fullBuf`, not with the version error. -/
theorem procConn_version_one_byte :
    (procConn (fun _ => none) (Conn.client [0x04])).err = some "EOF" ∧
    (procConn (fun _ => none) (Conn.client [0x04])).err ≠ some (verError 0x04) := by
  constructor <;> decide


/-- C7 (amended): for every client input of at least two bytes whose first byte
v is not 0x05, procConn ends with the error "only ver 0x05 is supported, but v"
(v in hexadecimal), makes no call but conn.Close (no reply byte is written,
Dailer is not called) and does not panic; and for every client input that
completes the method negotiation and then holds at least five request bytes of
which the first, v, is not 0x05, procConn ends with the same error after
writing only the method reply 05 00, never calls Dailer, and closes the
connection. -/
theorem procConn_version_check (Dailer : List Nat → Option String) (v n x1 x2 x3 x4 : Nat)
    (methods rest : List Nat) (readErr : String) (writeErr : Nat → Option String)
    (hv : v ≠ 0x05) :
    ((procConn Dailer (Conn.accepted (v :: n :: rest) readErr writeErr)).err =
        some ("only ver 0x05 is supported, but " ++ fmtX v) ∧
      (procConn Dailer (Conn.accepted (v :: n :: rest) readErr writeErr)).conn.log =
        [Event.close] ∧
      (procConn Dailer (Conn.accepted (v :: n :: rest) readErr writeErr)).dailed = [] ∧
      (procConn Dailer (Conn.accepted (v :: n :: rest) readErr writeErr)).panicked = false) ∧
    (writeErr 0 = none →
      (procConn Dailer (Conn.accepted (negotiation methods ++ ([v, x1, x2, x3, x4] ++ rest))
        readErr writeErr)).err = some ("only ver 0x05 is supported, but " ++ fmtX v) ∧
      (procConn Dailer (Conn.accepted (negotiation methods ++ ([v, x1, x2, x3, x4] ++ rest))
        readErr writeErr)).conn.log = [Event.write [0x05, 0x00], Event.close] ∧
      (procConn Dailer (Conn.accepted (negotiation methods ++ ([v, x1, x2, x3, x4] ++ rest))
        readErr writeErr)).dailed = [] ∧
      (procConn Dailer (Conn.accepted (negotiation methods ++ ([v, x1, x2, x3, x4] ++ rest))
        readErr writeErr)).panicked = false) := by
  constructor
  · obtain ⟨h1, h2, h3⟩ := procConn_bad_method_version Dailer v n rest readErr writeErr hv
    refine ⟨h1, h2, ?_, h3⟩
    simp [Result.dailed, h2]
  · intro hw
    rw [procConn_negotiation Dailer methods _ readErr writeErr hw,
      procRequest_bad_version Dailer _ v x1 x2 x3 x4 rest readErr writeErr hv]
    simp [Result.ret, Result.dailed, Conn.Close, Conn.negotiated, verError]

/-- Witness of C7 (amended): the inputs of the test suite, `00 00` as method
negotiation and `00 01 00 00 00` as request after the negotiation `05 01 00`. -/
theorem procConn_version_check_witness :
    ((procConn (fun _ => none) (Conn.accepted (0 :: 0 :: []) "EOF" (fun _ => none))).err =
        some ("only ver 0x05 is supported, but " ++ fmtX 0) ∧
      (procConn (fun _ => none) (Conn.accepted (0 :: 0 :: []) "EOF" (fun _ => none))).conn.log =
        [Event.close] ∧
      (procConn (fun _ => none) (Conn.accepted (0 :: 0 :: []) "EOF" (fun _ => none))).dailed
        = [] ∧
      (procConn (fun _ => none) (Conn.accepted (0 :: 0 :: []) "EOF"
        (fun _ => none))).panicked = false) ∧
    ((fun _ => none : Nat → Option String) 0 = none →
      (procConn (fun _ => none) (Conn.accepted (negotiation [0] ++ ([0, 1, 0, 0, 0] ++ []))
        "EOF" (fun _ => none))).err = some ("only ver 0x05 is supported, but " ++ fmtX 0) ∧
      (procConn (fun _ => none) (Conn.accepted (negotiation [0] ++ ([0, 1, 0, 0, 0] ++ []))
        "EOF" (fun _ => none))).conn.log = [Event.write [0x05, 0x00], Event.close] ∧
      (procConn (fun _ => none) (Conn.accepted (negotiation [0] ++ ([0, 1, 0, 0, 0] ++ []))
        "EOF" (fun _ => none))).dailed = [] ∧
      (procConn (fun _ => none) (Conn.accepted (negotiation [0] ++ ([0, 1, 0, 0, 0] ++ []))
        "EOF" (fun _ => none))).panicked = false) :=
  procConn_version_check (fun _ => none) 0 0 1 0 0 0 [0] [] "EOF" (fun _ => none) (by decide)

/-! ## Session table: lemmas -/

theorem mem_del (t : SessionTable) (k : Endpoint) (e : Endpoint × Endpoint) :
    e ∈ t.del k ↔ e ∈ t ∧ e.1 ≠ k := by
  simp [SessionTable.del, List.mem_filter]

theorem del_keys_nodup (t : SessionTable) (k : Endpoint) (h : (t.map Prod.fst).Nodup) :
    ((t.del k).map Prod.fst).Nodup :=
  h.sublist (List.Sublist.map _ (List.filter_sublist t))

theorem put_keys_nodup (t : SessionTable) (k v : Endpoint) (h : (t.map Prod.fst).Nodup) :
    ((t.put k v).map Prod.fst).Nodup := by
  simp only [SessionTable.put, List.map_cons, List.nodup_cons]
  refine ⟨?_, del_keys_nodup t k h⟩
  intro hk
  obtain ⟨e, he, hek⟩ := List.mem_map.mp hk
  exact ((mem_del t k e).mp he).2 hek

theorem get_of_mem (t : SessionTable) (h : (t.map Prod.fst).Nodup) (k v : Endpoint)
    (hm : (k, v) ∈ t) : t.get k = some v := by
  induction t with
  | nil => cases hm
  | cons e rest ih =>
    obtain ⟨k0, v0⟩ := e
    simp only [List.map_cons, List.nodup_cons] at h
    rcases List.mem_cons.mp hm with h1 | h1
    · simp only [Prod.mk.injEq] at h1
      simp [SessionTable.get, h1.1, h1.2]
    · have hne : k0 ≠ k := by
        intro hk
        exact h.1 (List.mem_map.mpr ⟨(k, v), h1, hk.symm⟩)
      simp [SessionTable.get, hne, ih h.2 h1]

theorem mem_of_get (t : SessionTable) (k v : Endpoint) (hg : t.get k = some v) :
    (k, v) ∈ t := by
  induction t with
  | nil => simp [SessionTable.get] at hg
  | cons e rest ih =>
    obtain ⟨k0, v0⟩ := e
    by_cases hk : k0 = k
    · simp only [SessionTable.get, if_pos hk, Option.some.injEq] at hg
      simp [hk, hg]
    · simp only [SessionTable.get, if_neg hk] at hg
      exact List.mem_cons_of_mem _ (ih hg)

theorem get_none_not_mem (t : SessionTable) (h : (t.map Prod.fst).Nodup) (k v : Endpoint)
    (hg : t.get k = none) : (k, v) ∉ t := by
  intro hm
  rw [get_of_mem t h k v hm] at hg
  cases hg

theorem value_unique (t : SessionTable) (h : (t.map Prod.fst).Nodup) (k a b : Endpoint)
    (ha : (k, a) ∈ t) (hb : (k, b) ∈ t) : a = b := by
  have h1 := get_of_mem t h k a ha
  have h2 := get_of_mem t h k b hb
  rw [h1] at h2
  exact Option.some.inj h2

theorem filter_key_of_mem (t : SessionTable) (h : (t.map Prod.fst).Nodup) (k v : Endpoint)
    (hm : (k, v) ∈ t) : t.filter (fun e => decide (e.1 = k)) = [(k, v)] := by
  induction t with
  | nil => cases hm
  | cons e rest ih =>
    obtain ⟨k0, v0⟩ := e
    simp only [List.map_cons, List.nodup_cons] at h
    rcases List.mem_cons.mp hm with h1 | h1
    · simp only [Prod.mk.injEq] at h1
      obtain ⟨hk, hv⟩ := h1
      subst hk hv
      have hnil : rest.filter (fun e => decide (e.1 = k)) = [] := by
        rw [List.filter_eq_nil_iff]
        intro e he hek
        exact h.1 (List.mem_map.mpr ⟨e, he, by simpa using hek⟩)
      simp [List.filter_cons, hnil]
    · have hne : k0 ≠ k := by
        intro hk
        exact h.1 (List.mem_map.mpr ⟨(k, v), h1, hk.symm⟩)
      simp only [List.filter_cons, hne, decide_False, Bool.false_eq_true, if_false]
      exact ih h.2 h1

theorem paired_add (t : SessionTable) (src srcSid dst dstSid : Nat) (h : t.Paired)
    (h1 : t.get (src, srcSid) = none) (h2 : t.get (dst, dstSid) = none) :
    (addTable t src srcSid dst dstSid).Paired := by
  obtain ⟨hn, hs⟩ := h
  refine ⟨put_keys_nodup _ _ _ (put_keys_nodup _ _ _ hn), ?_⟩
  intro e he
  obtain ⟨a, b⟩ := e
  simp only [addTable, SessionTable.put, List.mem_cons, mem_del, Prod.mk.injEq] at he ⊢
  rcases he with ⟨ha, hb⟩ | ⟨⟨ha, hb⟩ | ⟨hm, hk1⟩, hk2⟩
  · subst ha hb
    by_cases hq : (src, srcSid) = (dst, dstSid)
    · left; exact ⟨hq, hq.symm⟩
    · right; exact ⟨Or.inl ⟨rfl, rfl⟩, hq⟩
  · subst ha hb
    left; exact ⟨rfl, rfl⟩
  · right
    have hr := hs (a, b) hm
    simp only at hr hk1 hk2
    have hb1 : b ≠ (src, srcSid) := by
      intro hb; subst hb
      exact get_none_not_mem t hn _ a h1 hr
    have hb2 : b ≠ (dst, dstSid) := by
      intro hb; subst hb
      exact get_none_not_mem t hn _ a h2 hr
    exact ⟨Or.inr ⟨hr, hb1⟩, hb2⟩

theorem paired_remove (t : SessionTable) (conn sid : Nat) (h : t.Paired) :
    (removeTable t conn sid).Paired := by
  obtain ⟨hn, hs⟩ := h
  unfold removeTable
  cases hg : t.get (conn, sid) with
  | none => exact ⟨hn, hs⟩
  | some peer =>
    have hm := mem_of_get t _ _ hg
    have hm2 := hs _ hm
    simp only at hm2
    refine ⟨del_keys_nodup _ _ (del_keys_nodup _ _ hn), ?_⟩
    intro e he
    obtain ⟨a, b⟩ := e
    simp only [mem_del] at he ⊢
    obtain ⟨⟨he1, he2⟩, he3⟩ := he
    have hr := hs (a, b) he1
    simp only at hr he2 he3
    refine ⟨⟨hr, ?_⟩, ?_⟩
    · intro hb
      subst hb
      exact he3 (value_unique t hn _ _ _ hr hm)
    · intro hb
      subst hb
      exact he2 (value_unique t hn _ _ _ hr hm2)

theorem paired_of_reachable (t : SessionTable) (h : ReachableTable t) : t.Paired := by
  induction h with
  | empty => exact ⟨List.nodup_nil, by intro e he; cases he⟩
  | add t src srcSid dst dstSid _ h1 h2 ih => exact paired_add t src srcSid dst dstSid ih h1 h2
  | remove t conn sid _ ih => exact paired_remove t conn sid ih

theorem get_del_self (t : SessionTable) (k : Endpoint) : (t.del k).get k = none := by
  induction t with
  | nil => rfl
  | cons e rest ih =>
    obtain ⟨k0, v0⟩ := e
    by_cases hk : k0 = k
    · simpa [SessionTable.del, hk] using ih
    · simp only [SessionTable.del, ne_eq, hk, not_false_eq_true, decide_True, List.filter_cons_of_pos,
        SessionTable.get, if_false]
      exact ih

theorem get_del_none (t : SessionTable) (k x : Endpoint) (h : t.get x = none) :
    (t.del k).get x = none := by
  induction t with
  | nil => rfl
  | cons e rest ih =>
    obtain ⟨k0, v0⟩ := e
    by_cases hx : k0 = x
    · simp [SessionTable.get, hx] at h
    · simp only [SessionTable.get, if_neg hx] at h
      by_cases hk : k0 = k
      · simpa [SessionTable.del, hk] using ih h
      · simp only [SessionTable.del, ne_eq, hk, not_false_eq_true, decide_True,
          List.filter_cons_of_pos, SessionTable.get, if_neg hx]
        exact ih h

theorem addTable_get (t : SessionTable) (src srcSid dst dstSid : Nat) :
    (addTable t src srcSid dst dstSid).get (src, srcSid) = some (dst, dstSid) ∧
    (addTable t src srcSid dst dstSid).get (dst, dstSid) = some (src, srcSid) := by
  constructor
  · by_cases hq : (dst, dstSid) = (src, srcSid)
    · simp [addTable, SessionTable.put, SessionTable.get, hq]
    · have hq2 : (src, srcSid) ≠ (dst, dstSid) := fun h => hq h.symm
      simp [addTable, SessionTable.put, SessionTable.get, SessionTable.del, hq, hq2]
  · simp [addTable, SessionTable.put, SessionTable.get]

theorem removeTable_get (t : SessionTable) (k1 k2 : Endpoint) (h : t.Paired)
    (hm : (k1, k2) ∈ t) :
    (removeTable t k1.1 k1.2).get k1 = none ∧ (removeTable t k1.1 k1.2).get k2 = none := by
  have hg := get_of_mem t h.1 k1 k2 hm
  unfold removeTable
  simp only [Prod.mk.eta, hg]
  exact ⟨get_del_none _ _ _ (get_del_self t k1), get_del_self _ k2⟩

/-- Why `ReachableTable` installs sessions at free endpoints only: installing a second
session at an endpoint that holds one leaves the old peer without its reverse. -/
theorem addTable_reused_endpoint :
    ¬ (addTable (addTable [] 1 1000 2 1001) 1 1000 3 1002).Paired := by
  intro h
  have h1 := h.2 ((2, 1001), (1, 1000)) (by decide)
  revert h1
  decide

/-! ## Session table: claims -/

/-- C9: in every reachable session table, every entry (c1,s1) -> (c2,s2) has
exactly one entry keyed (c2,s2), and that entry is (c2,s2) -> (c1,s1) (the
entries keyed (c2,s2) are that one entry); addTable
installs both halves; and removing either half of a session removes both. -/
theorem sessionTable_symmetric :
    (∀ t : SessionTable, ReachableTable t → ∀ k1 k2 : Endpoint, (k1, k2) ∈ t →
      t.filter (fun e => decide (e.1 = k2)) = [(k2, k1)]) ∧
    (∀ (t : SessionTable) (src srcSid dst dstSid : Nat),
      (addTable t src srcSid dst dstSid).get (src, srcSid) = some (dst, dstSid) ∧
      (addTable t src srcSid dst dstSid).get (dst, dstSid) = some (src, srcSid)) ∧
    (∀ t : SessionTable, ReachableTable t → ∀ k1 k2 : Endpoint, (k1, k2) ∈ t →
      ((removeTable t k1.1 k1.2).get k1 = none ∧ (removeTable t k1.1 k1.2).get k2 = none) ∧
      ((removeTable t k2.1 k2.2).get k1 = none ∧ (removeTable t k2.1 k2.2).get k2 = none)) := by
  refine ⟨?_, addTable_get, ?_⟩
  · intro t ht k1 k2 hm
    have hp := paired_of_reachable t ht
    have hr := hp.2 _ hm
    exact filter_key_of_mem t hp.1 k2 k1 hr
  · intro t ht k1 k2 hm
    have hp := paired_of_reachable t ht
    have hr := hp.2 _ hm
    have h2 := removeTable_get t k2 k1 hp hr
    exact ⟨removeTable_get t k1 k2 hp hm, h2.2, h2.1⟩

/-- The table of the test suite, `addTable(src, 1000, dst, 1001)` on an empty
table, is reachable and holds the two halves. -/
theorem sessionTable_test_table :
    ReachableTable (addTable [] 1 1000 2 1001) ∧
    addTable [] 1 1000 2 1001 = [((2, 1001), (1, 1000)), ((1, 1000), (2, 1001))] ∧
    removeTable (addTable [] 1 1000 2 1001) 2 1001 = [] :=
  ⟨ReachableTable.add [] 1 1000 2 1001 ReachableTable.empty rfl rfl, by decide, by decide⟩

/-! ## Login: claims -/

/-- A login with the token the ACL holds for the name is accepted: `Login`
returns no error and the bond of that name gets a channel. -/
theorem login_accepted (server : Router) (name token : String) (hn : name ≠ "")
    (ht : token ≠ "") (h : server.acl.lookup name = some token) :
    (Login server name token).2 = none ∧
    (Login server name token).1.bonds = addChannel server.bonds name ∧
    ∃ used, (Login server name token).1.bonds.lookup name = some used ∧ used ≠ [] := by
  have hb : ∃ used, (addChannel server.bonds name).lookup name = some used ∧ used ≠ [] := by
    unfold addChannel
    cases hl : server.bonds.lookup name with
    | none => exact ⟨[0], by simp [List.lookup], by simp⟩
    | some used => exact ⟨nextIndex used :: used, by simp [List.lookup], by simp⟩
  simp [Login, procLogin, hn, ht, h, hb]

/-- C10: for every login attempt whose peer name is not a key of the server's
ACL, or whose token is empty or differs from acl[name], the client's Login
returns an error, the server answers with an error LoginBack and closes the
connection, and the server's bonds are what they were: no bond entry is
created for that name. -/
theorem login_rejected (server : Router) (name token : String)
    (h : server.acl.lookup name = none ∨ token = "" ∨ server.acl.lookup name ≠ some token) :
    (Login server name token).2 ≠ none ∧
    (∃ message, (procLogin server name token).2.1 = LoginBack.error message) ∧
    (procLogin server name token).2.2 = true ∧
    (Login server name token).1.bonds = server.bonds ∧
    (Login server name token).1.bonds.lookup name = server.bonds.lookup name := by
  have key : (procLogin server name token).2.2 = true ∧
      (∃ message, (procLogin server name token).2.1 = LoginBack.error message) ∧
      (procLogin server name token).1 = server := by
    unfold procLogin
    by_cases h0 : name = "" ∨ token = ""
    · simp [h0]
    · rw [if_neg h0]
      cases hl : server.acl.lookup name with
      | none => simp
      | some expected =>
        have hne : expected ≠ token := by
          rcases h with h1 | h1 | h1
          · rw [hl] at h1; cases h1
          · exact absurd (Or.inr h1) h0
          · intro he; rw [hl, he] at h1; exact h1 rfl
        simp [hne]
  obtain ⟨hc, ⟨message, hm⟩, hs⟩ := key
  have hL : Login server name token = (server, some message) := by
    unfold Login
    rcases hp : procLogin server name token with ⟨s1, back, closed⟩
    rw [hp] at hm hs
    simp only at hm hs
    subst hm hs
    rfl
  refine ⟨by rw [hL]; simp, ⟨message, hm⟩, hc, by rw [hL], by rw [hL]⟩

/-- Witness of C10: the two attempts of the test suite against the ACL
`ms -> abc`: the peer `error` with token `abc`, which the ACL does not hold. -/
theorem login_rejected_witness :
    (Login ⟨"master", [("ms", "abc")], []⟩ "error" "abc").2 ≠ none ∧
    (∃ message, (procLogin ⟨"master", [("ms", "abc")], []⟩ "error" "abc").2.1 =
      LoginBack.error message) ∧
    (procLogin ⟨"master", [("ms", "abc")], []⟩ "error" "abc").2.2 = true ∧
    (Login ⟨"master", [("ms", "abc")], []⟩ "error" "abc").1.bonds = [] ∧
    (Login ⟨"master", [("ms", "abc")], []⟩ "error" "abc").1.bonds.lookup "error" =
      ([] : List (String × List Nat)).lookup "error" :=
  login_rejected ⟨"master", [("ms", "abc")], []⟩ "error" "abc" (Or.inl (by decide))


/-! ## console.go: lemmas -/

theorem hasPrefix_append (p x : List Nat) : HasPrefix (p ++ x) p = true := by
  induction p with
  | nil => cases x <;> rfl
  | cons d p ih => simp [HasPrefix, ih]

theorem eq_append_of_hasPrefix (s p : List Nat) (h : HasPrefix s p = true) :
    s = p ++ s.drop p.length := by
  induction p generalizing s with
  | nil => rfl
  | cons d p ih =>
    cases s with
    | nil => simp [HasPrefix] at h
    | cons c s =>
      simp only [HasPrefix, Bool.and_eq_true, decide_eq_true_eq] at h
      have := ih s h.2
      simp only [List.length_cons, List.drop_succ_cons, List.cons_append, h.1]
      rw [← this]

theorem index_append (x p y : List Nat) : (Index (x ++ (p ++ y)) p).isSome = true := by
  induction x with
  | nil =>
    cases hs : p ++ y with
    | nil =>
      have hp : p = [] := (List.append_eq_nil.mp hs).1
      simp [Index, hp]
    | cons c s =>
      have hp : HasPrefix (c :: s) p = true := by rw [← hs]; exact hasPrefix_append p y
      simp [Index, hp]
  | cons c x ih =>
    simp only [List.cons_append, Index]
    split
    · rfl
    · simpa using ih

theorem contains_append (x p : List Nat) : Contains (x ++ p) p = true := by
  have := index_append x p []
  simpa [Contains] using this

theorem index_none_cons (c : Nat) (s old : List Nat) (h : Index (c :: s) old = none) :
    HasPrefix (c :: s) old = false ∧ Index s old = none := by
  simp only [Index] at h
  split at h
  · cases h
  · rename_i hp
    refine ⟨by simpa using hp, ?_⟩
    cases hi : Index s old with
    | none => rfl
    | some i => simp [hi] at h

theorem replaceLoop_noop (old new : List Nat) :
    ∀ (fuel : Nat) (s : List Nat), Index s old = none → replaceLoop old new fuel s = s := by
  intro fuel
  induction fuel with
  | zero => intro s _; cases s <;> rfl
  | succ n ih =>
    intro s h
    cases s with
    | nil => rfl
    | cons c s =>
      obtain ⟨h1, h2⟩ := index_none_cons c s old h
      simp [replaceLoop, h1, ih s h2]

theorem replaceAll_noop (s old new : List Nat) (h : Contains s old = false) :
    ReplaceAll s old new = s := by
  have hi : Index s old = none := by
    cases hx : Index s old with
    | none => rfl
    | some i => simp [Contains, hx] at h
  exact replaceLoop_noop old new s.length s hi

theorem index_of_mem (c : Nat) (s : List Nat) (h : c ∈ s) : (Index s [c]).isSome = true := by
  induction s with
  | nil => cases h
  | cons d s ih =>
    simp only [Index]
    split
    · rfl
    · rename_i hp
      have hne : d ≠ c := by
        intro hd
        apply hp
        cases s <;> simp [HasPrefix, hd]
      rcases List.mem_cons.mp h with h1 | h1
      · exact absurd h1.symm hne
      · simpa using ih h1

theorem mem_trimSuffix (c : Nat) (s suf : List Nat) (h : c ∈ s) (hc : c ∉ suf) :
    c ∈ TrimSuffix s suf := by
  unfold TrimSuffix
  split
  · rename_i hs
    simp only [HasSuffix, Bool.and_eq_true, decide_eq_true_eq] at hs
    have hsplit := List.take_append_drop (s.length - suf.length) s
    rw [hs.2] at hsplit
    rw [← hsplit] at h
    rcases List.mem_append.mp h with h1 | h1
    · exact h1
    · exact absurd h1 hc
  · exact h

theorem mem_trimPrefix_of_proxyPrefixed (target : List Nat) (h : proxyPrefixed target = true) :
    45 ∈ TrimPrefix target (bytes "tcp://") := by
  have b1 : bytes "tcp://tcp-" = bytes "tcp://" ++ [116, 99, 112, 45] := by decide
  have b2 : bytes "tcp://http-" = bytes "tcp://" ++ [104, 116, 116, 112, 45] := by decide
  have b3 : bytes "tcp-" = [116, 99, 112, 45] := by decide
  have b4 : bytes "http-" = [104, 116, 116, 112, 45] := by decide
  have b0 : bytes "tcp://" = [116, 99, 112, 58, 47, 47] := by decide
  simp only [proxyPrefixed, Bool.or_eq_true] at h
  rcases h with ((h | h) | h) | h
  · have e := eq_append_of_hasPrefix _ _ h
    rw [b1, List.append_assoc] at e
    rw [e]
    simp [TrimPrefix, hasPrefix_append]
  · have e := eq_append_of_hasPrefix _ _ h
    rw [b2, List.append_assoc] at e
    rw [e]
    simp [TrimPrefix, hasPrefix_append]
  · have e := eq_append_of_hasPrefix _ _ h
    rw [b3] at e
    rw [e, b0]
    simp [TrimPrefix, HasPrefix]
  · have e := eq_append_of_hasPrefix _ _ h
    rw [b4] at e
    rw [e, b0]
    simp [TrimPrefix, HasPrefix]

theorem index_trimTarget (target : List Nat) (h : proxyPrefixed target = true) :
    (Index (trimTarget target) (bytes "-")).isSome = true := by
  have hb : bytes "-" = [45] := by decide
  rw [hb]
  apply index_of_mem
  unfold trimTarget
  apply mem_trimSuffix _ _ _ _ (by decide)
  apply mem_trimSuffix _ _ _ _ (by decide)
  exact mem_trimPrefix_of_proxyPrefixed target h

theorem splitN2_of_index (s sep : List Nat) (h : (Index s sep).isSome = true) :
    ∃ p0 p1, SplitN2 s sep = [p0, p1] := by
  unfold SplitN2
  cases hi : Index s sep with
  | none => simp [hi] at h
  | some i => exact ⟨_, _, rfl⟩

theorem parseProxyURI_isSome (uri target : List Nat) :
    (parseProxyURI uri target).isSome = true := by
  unfold parseProxyURI
  by_cases h : proxyPrefixed target = true
  · obtain ⟨p0, p1, hs⟩ := splitN2_of_index _ _ (index_trimTarget target h)
    simp [h, hs]
  · have hf : proxyPrefixed target = false := by simpa using h
    simp only [hf, Bool.false_eq_true, if_false]
    split <;> rfl

/-! ## console.go: claims -/

/-- C13: for every uri the path Ping dials contains "tcp://echo"; a uri that
does not contain it is dialed as uri + "->tcp://echo", or as "tcp://echo" when
uri is empty; a uri that contains it is dialed unchanged; and normalising
twice gives the same path as normalising once. -/
theorem pingPath_normal (uri : List Nat) :
    Contains (pingPath uri) (bytes "tcp://echo") = true ∧
    (Contains uri (bytes "tcp://echo") = false →
      (uri ≠ [] → pingPath uri = uri ++ bytes "->tcp://echo") ∧
      (uri = [] → pingPath uri = bytes "tcp://echo")) ∧
    (Contains uri (bytes "tcp://echo") = true → pingPath uri = uri) ∧
    pingPath (pingPath uri) = pingPath uri := by
  have hc : Contains (pingPath uri) (bytes "tcp://echo") = true := by
    unfold pingPath
    cases h : Contains uri (bytes "tcp://echo") with
    | true => simpa using h
    | false =>
      simp only [Bool.not_false, if_true]
      exact contains_append _ _
  refine ⟨hc, ?_, ?_, ?_⟩
  · intro h
    constructor
    · intro hne
      have hlen : uri.length > 0 := List.length_pos.mpr hne
      have hb : bytes "->" ++ bytes "tcp://echo" = bytes "->tcp://echo" := by decide
      simp only [pingPath, h, Bool.not_false, if_true, hlen, List.append_assoc, hb]
    · intro he
      subst he
      decide
  · intro h
    simp [pingPath, h]
  · have h2 : ∀ p, Contains p (bytes "tcp://echo") = true → pingPath p = p := by
      intro p hp
      simp [pingPath, hp]
    exact h2 _ hc

/-- C16: parseProxyURI is total: it returns a result for every template uri
and every target; and for every target beginning with "tcp://tcp-",
"tcp://http-", "tcp-" or "http-", the target still contains "-" after the
"tcp://" prefix and the ":80" and ":443" suffixes are trimmed, so
strings.SplitN(target, "-", 2) returns two parts and parts[1] exists. -/
theorem parseProxyURI_total (uri target : List Nat) :
    (parseProxyURI uri target).isSome = true ∧
    (proxyPrefixed target = true →
      Contains (trimTarget target) (bytes "-") = true ∧
      (SplitN2 (trimTarget target) (bytes "-")).length = 2 ∧
      ((SplitN2 (trimTarget target) (bytes "-"))[1]?).isSome = true) := by
  refine ⟨parseProxyURI_isSome uri target, ?_⟩
  intro h
  have hi := index_trimTarget target h
  obtain ⟨p0, p1, hs⟩ := splitN2_of_index _ _ hi
  refine ⟨hi, ?_, ?_⟩
  · rw [hs]; rfl
  · rw [hs]; rfl

/-- C18: for every template uri and every target that contains "." and does
not begin with "tcp://tcp-", "tcp://http-", "tcp-" or "http-", the result is
uri with every "${URI}" replaced by target unchanged and then every "${HOST}"
replaced by target without a leading "tcp://"; and a template that contains
neither placeholder is returned unchanged for every target. -/
theorem parseProxyURI_ordinary (uri target : List Nat) :
    (Contains target (bytes ".") = true → proxyPrefixed target = false →
      parseProxyURI uri target =
        some (ReplaceAll (ReplaceAll uri (bytes "${URI}") target) (bytes "${HOST}")
          (TrimPrefix target (bytes "tcp://")))) ∧
    (Contains uri (bytes "${URI}") = false → Contains uri (bytes "${HOST}") = false →
      parseProxyURI uri target = some uri) := by
  constructor
  · intro hd hp
    simp [parseProxyURI, hp, hd]
  · intro hu hh
    unfold parseProxyURI
    by_cases h : proxyPrefixed target = true
    · obtain ⟨p0, p1, hs⟩ := splitN2_of_index _ _ (index_trimTarget target h)
      simp only [h, if_true, hs]
      simp [replaceAll_noop _ _ _ hh, replaceAll_noop _ _ _ hu]
    · have hf : proxyPrefixed target = false := by simpa using h
      simp only [hf, Bool.false_eq_true, if_false]
      split <;> simp [replaceAll_noop _ _ _ hh, replaceAll_noop _ _ _ hu]

/-- An ordinary target with port 80 keeps its port: the template
`x->${URI}|${HOST}` and the target `tcp://host.com:80` give
`x->tcp://host.com:80|host.com:80`. -/
theorem parseProxyURI_keeps_port :
    parseProxyURI (bytes "x->${URI}|${HOST}") (bytes "tcp://host.com:80") =
      some (bytes "x->tcp://host.com:80|host.com:80") := by
  decide


/-! ## SOCKS5 reply and start: lemmas -/

theorem reply_slice (buf : Buf) (rep : Nat) : (buf.reply rep).slice 0 10 = socksReply rep := rfl

theorem dialRemote_log (Dailer : List Nat → Option String) (c : Conn) (buf : Buf)
    (remote : List Nat) (port : Nat) :
    (dialRemote Dailer c buf remote port).conn.log =
      c.log ++ [Event.dail (remote ++ bytes ":" ++ bytes (fmtV port))] ++
        (match Dailer (remote ++ bytes ":" ++ bytes (fmtV port)) with
         | some _ => [Event.write (socksReply 0x04), Event.pendingClose, Event.close, Event.close]
         | none =>
           match c.writeErr c.writes with
           | none => [Event.write (socksReply 0x00), Event.start]
           | some _ =>
             [Event.write (socksReply 0x00), Event.pendingClose, Event.close, Event.close]) ∧
    (dialRemote Dailer c buf remote port).err =
      (match Dailer (remote ++ bytes ":" ++ bytes (fmtV port)) with
       | some e => some e
       | none => c.writeErr c.writes) := by
  unfold dialRemote
  simp only [reply_slice]
  generalize remote ++ bytes ":" ++ bytes (fmtV port) = uri
  cases hd : Dailer uri with
  | some e =>
    simp [Result.ret, PendingConn.Close, PendingConn.casPending, PendingConn.closeWc,
      NewPendingConn, Conn.rwc, Conn.Close, Conn.Write]
  | none =>
    cases hw : c.writeErr c.writes with
    | none =>
      simp [hw, Result.ret, PendingConn.Start, PendingConn.casPending,
        PendingConn.closeWc, NewPendingConn, Conn.Write]
    | some e =>
      simp [hw, Result.ret, PendingConn.Close, PendingConn.casPending,
        PendingConn.closeWc, NewPendingConn, Conn.rwc, Conn.Close, Conn.Write]

theorem fullBuf_log (c : Conn) (buf : Buf) (off n : Nat) :
    (fullBuf c buf off n).1.log = c.log ∧ (fullBuf c buf off n).1.writes = c.writes ∧
    (fullBuf c buf off n).1.writeErr = c.writeErr := by
  unfold fullBuf
  split <;> simp

theorem parseRequest_log (c : Conn) (buf : Buf) :
    ∀ c5 buf5 remote port err, parseRequest c buf = Request.parsed c5 buf5 remote port err →
      c5.log = c.log ∧ c5.writes = c.writes ∧ c5.writeErr = c.writeErr := by
  intro c5 buf5 remote port err h
  unfold parseRequest at h
  split at h
  · have hl := fullBuf_log c buf 5 5
    rcases hf : fullBuf c buf 5 5 with ⟨c1, buf1, e⟩
    rw [hf] at h hl
    cases e <;> simp only [Request.parsed.injEq] at h <;> (rw [← h.1]; exact hl)
  · split at h
    · have hl := fullBuf_log c buf 5 ((buf 4 + 2) % 256)
      rcases hf : fullBuf c buf 5 ((buf 4 + 2) % 256) with ⟨c1, buf1, e⟩
      rw [hf] at h hl
      cases e with
      | some e => simp only [Request.parsed.injEq] at h; rw [← h.1]; exact hl
      | none =>
        simp only at h
        split at h
        · cases h
        · simp only [Request.parsed.injEq] at h; rw [← h.1]; exact hl
    · cases h

theorem procRequest_cases (Dailer : List Nat → Option String) (c : Conn) (buf : Buf) :
    (∃ c1 e, procRequest Dailer c buf = Result.ret c1 (some e) none ∧ c1.log = c.log) ∨
    (∃ c1, procRequest Dailer c buf = Result.panic c1 ∧ c1.log = c.log) ∨
    (∃ c5 buf5 remote port, procRequest Dailer c buf = dialRemote Dailer c5 buf5 remote port ∧
      c5.log = c.log ∧ c5.writes = c.writes ∧ c5.writeErr = c.writeErr) := by
  unfold procRequest
  have hl := fullBuf_log c buf 0 5
  rcases hf : fullBuf c buf 0 5 with ⟨c4, buf4, e⟩
  rw [hf] at hl
  simp only at hl
  cases e with
  | some e => exact Or.inl ⟨c4, e, rfl, hl.1⟩
  | none =>
    simp only
    split
    · exact Or.inl ⟨c4, _, rfl, hl.1⟩
    · cases hp : parseRequest c4 buf4 with
      | unsupported e => exact Or.inl ⟨c4, e, rfl, hl.1⟩
      | panic => exact Or.inr (Or.inl ⟨c4, rfl, hl.1⟩)
      | parsed c5 buf5 remote port err =>
        obtain ⟨h1, h2, h3⟩ := parseRequest_log c4 buf4 c5 buf5 remote port err hp
        exact Or.inr (Or.inr ⟨c5, buf5, remote, port, rfl, by rw [h1, hl.1], by rw [h2, hl.2.1],
          by rw [h3, hl.2.2]⟩)

theorem procConn_cases (Dailer : List Nat → Option String) (input : List Nat)
    (readErr : String) (writeErr : Nat → Option String) :
    (∃ c1 e, procConn Dailer (Conn.accepted input readErr writeErr) =
        Result.ret c1 (some e) none ∧
      (c1.log = [] ∨ c1.log = [Event.write [0x05, 0x00]])) ∨
    (∃ c1, procConn Dailer (Conn.accepted input readErr writeErr) = Result.panic c1 ∧
      c1.log = [Event.write [0x05, 0x00]]) ∨
    (∃ c5 buf5 remote port, procConn Dailer (Conn.accepted input readErr writeErr) =
        dialRemote Dailer c5 buf5 remote port ∧
      c5.log = [Event.write [0x05, 0x00]] ∧ c5.writes = 1 ∧ c5.writeErr = writeErr) := by
  unfold procConn
  simp only
  have hl1 := fullBuf_log (Conn.accepted input readErr writeErr) (fun _ => 0) 0 2
  rcases hf1 : fullBuf (Conn.accepted input readErr writeErr) (fun _ => 0) 0 2 with ⟨c1, buf1, e1⟩
  rw [hf1] at hl1
  simp only [Conn.accepted] at hl1
  cases e1 with
  | some e => exact Or.inl ⟨c1, e, rfl, Or.inl hl1.1⟩
  | none =>
    simp only
    split
    · exact Or.inl ⟨c1, _, rfl, Or.inl hl1.1⟩
    · have hl2 := fullBuf_log c1 buf1 2 (buf1 1)
      rcases hf2 : fullBuf c1 buf1 2 (buf1 1) with ⟨c2, buf2, e2⟩
      rw [hf2] at hl2
      simp only at hl2
      cases e2 with
      | some e => exact Or.inl ⟨c2, e, rfl, Or.inl (by rw [hl2.1, hl1.1])⟩
      | none =>
        simp only [Conn.Write]
        have hlog : c2.log = [] := by rw [hl2.1, hl1.1]
        have hwr : c2.writes = 0 := by rw [hl2.2.1, hl1.2.1]
        have hwe : c2.writeErr = writeErr := by rw [hl2.2.2, hl1.2.2]
        cases hw : c2.writeErr c2.writes with
        | some e =>
          simp only
          exact Or.inl ⟨_, e, rfl, Or.inr (by simp [hlog])⟩
        | none =>
          simp only
          rcases procRequest_cases Dailer
            { c2 with writes := c2.writes + 1, log := c2.log ++ [Event.write [0x05, 0x00]] }
            buf2 with ⟨c3, e, h, hlg⟩ | ⟨c3, h, hlg⟩ | ⟨c5, buf5, remote, port, h, hlg, hws, hwf⟩
          · exact Or.inl ⟨c3, e, h, Or.inr (by simp [hlg, hlog])⟩
          · exact Or.inr (Or.inl ⟨c3, h, by simp [hlg, hlog]⟩)
          · exact Or.inr (Or.inr ⟨c5, buf5, remote, port, h, by simp [hlg, hlog],
              by simp [hws, hwr], by simp [hwf, hwe]⟩)

/-- The calls `procConn` makes for an IPv4 request after a completed
negotiation: the method reply, one `Dailer` call, one reply of ten bytes whose
second byte is 0x00 when `Dailer` returned no error and 0x04 when it returned
one, then `Start`, or `Close` when `Dailer` or the write of the reply failed. -/
theorem procConn_ipv4_reply (Dailer : List Nat → Option String) (methods : List Nat)
    (cmd a b c d port : Nat) (rest : List Nat) (readErr : String)
    (writeErr : Nat → Option String) (hport : port < 65536) (hw : writeErr 0 = none) :
    (procConn Dailer (Conn.accepted (negotiation methods ++ (requestIPv4 cmd a b c d port ++ rest))
      readErr writeErr)).conn.log =
      [Event.write [0x05, 0x00]] ++
        [Event.dail (bytes (fmtV a ++ "." ++ fmtV b ++ "." ++ fmtV c ++ "." ++ fmtV d) ++
          bytes ":" ++ bytes (fmtV port))] ++
        (match Dailer (bytes (fmtV a ++ "." ++ fmtV b ++ "." ++ fmtV c ++ "." ++ fmtV d) ++
            bytes ":" ++ bytes (fmtV port)) with
         | some _ => [Event.write (socksReply 0x04), Event.pendingClose, Event.close, Event.close]
         | none =>
           match writeErr 1 with
           | none => [Event.write (socksReply 0x00), Event.start]
           | some _ =>
             [Event.write (socksReply 0x00), Event.pendingClose, Event.close, Event.close]) := by
  rw [procConn_negotiation Dailer methods _ readErr writeErr hw]
  obtain ⟨buf5, h⟩ := procRequest_ipv4 Dailer
    (Buf.store (Buf.store (fun _ => 0) 0 [0x05, methods.length]) 2 methods)
    cmd 0x00 a b c d (port / 2 ^ 8 % 256) (port % 256) rest readErr writeErr
  have hin : requestIPv4 cmd a b c d port ++ rest =
      [0x05, cmd, 0x00, 0x01, a, b, c, d, port / 2 ^ 8 % 256, port % 256] ++ rest := by
    simp [requestIPv4, putUint16]
  rw [hin, h, putUint16_value port hport]
  exact (dialRemote_log Dailer (Conn.negotiated rest readErr writeErr) buf5 _ port).1

/-- The same for a domain request of at most 249 bytes. -/
theorem procConn_domain_reply (Dailer : List Nat → Option String) (methods : List Nat)
    (cmd port : Nat) (domain rest : List Nat) (readErr : String)
    (writeErr : Nat → Option String) (hlen : domain.length ≤ 249) (hport : port < 65536)
    (hw : writeErr 0 = none) :
    (procConn Dailer (Conn.accepted (negotiation methods ++ (requestDomain cmd domain port ++ rest))
      readErr writeErr)).conn.log =
      [Event.write [0x05, 0x00]] ++ [Event.dail (domain ++ bytes ":" ++ bytes (fmtV port))] ++
        (match Dailer (domain ++ bytes ":" ++ bytes (fmtV port)) with
         | some _ => [Event.write (socksReply 0x04), Event.pendingClose, Event.close, Event.close]
         | none =>
           match writeErr 1 with
           | none => [Event.write (socksReply 0x00), Event.start]
           | some _ =>
             [Event.write (socksReply 0x00), Event.pendingClose, Event.close, Event.close]) := by
  rw [procConn_negotiation Dailer methods _ readErr writeErr hw]
  have hm : domain.length % 256 = domain.length := by omega
  obtain ⟨buf5, h⟩ := procRequest_domain Dailer
    (Buf.store (Buf.store (fun _ => 0) 0 [0x05, methods.length]) 2 methods)
    cmd 0x00 (port / 2 ^ 8 % 256) (port % 256) domain rest readErr writeErr hlen
  have hin : requestDomain cmd domain port ++ rest =
      [0x05, cmd, 0x00, 0x03, domain.length] ++
        (domain ++ [port / 2 ^ 8 % 256, port % 256]) ++ rest := by
    simp [requestDomain, putUint16, hm]
  rw [hin, h, putUint16_value port hport]
  exact (dialRemote_log Dailer (Conn.negotiated rest readErr writeErr) buf5 domain port).1

/-! ## SOCKS5 reply and start: claims -/

/-- C12 (code evaluated at the failing input): after the negotiation `05 01 00`
the well-formed request for a domain of 251 bytes `a` and port 80 makes
`procConn` panic on `buf[5 : buf[4]+5]`, the byte sum having wrapped to 0: the
only call made is the write of the method reply, so no reply of ten bytes is
written and `Dailer` is not called. -/
theorem procConn_reply_251 :
    (procConn (fun _ => none)
      (Conn.client (negotiation [0] ++ requestDomain 1 (List.replicate 251 97) 80))).panicked
        = true ∧
    (procConn (fun _ => none)
      (Conn.client (negotiation [0] ++ requestDomain 1 (List.replicate 251 97) 80))).conn.log
        = [Event.write [0x05, 0x00]] := by
  set_option maxRecDepth 100000 in
  refine ⟨by decide, by decide⟩

/-- C15: in procConn, PendingConn.Start is called only as the last call, right
after the ten-byte success reply was written without error, Dailer having
returned no error; it is never called when procConn ends with an error, and
when Dailer fails or the write of the reply fails the PendingConn is closed
instead; until then the PendingConn handed to Dailer is as NewPendingConn made
it, and a Write or Read on it waits. -/
theorem procConn_start_after_reply (Dailer : List Nat → Option String) (input : List Nat)
    (readErr : String) (writeErr : Nat → Option String) :
    (Event.start ∈ (procConn Dailer (Conn.accepted input readErr writeErr)).conn.log →
      ∃ uri, (procConn Dailer (Conn.accepted input readErr writeErr)).conn.log =
          [Event.write [0x05, 0x00], Event.dail uri, Event.write (socksReply 0x00),
            Event.start] ∧
        Dailer uri = none ∧ writeErr 1 = none ∧
        (procConn Dailer (Conn.accepted input readErr writeErr)).err = none) ∧
    ((procConn Dailer (Conn.accepted input readErr writeErr)).err ≠ none →
      Event.start ∉ (procConn Dailer (Conn.accepted input readErr writeErr)).conn.log) ∧
    (∀ uri, Event.dail uri ∈ (procConn Dailer (Conn.accepted input readErr writeErr)).conn.log →
      (Dailer uri ≠ none ∨ writeErr 1 ≠ none) →
      Event.start ∉ (procConn Dailer (Conn.accepted input readErr writeErr)).conn.log ∧
      Event.pendingClose ∈ (procConn Dailer (Conn.accepted input readErr writeErr)).conn.log) ∧
    (∀ (c : Conn) (b : List Nat),
      NewPendingConn.Write Conn.rwc c b = Call.waits ∧
      NewPendingConn.Read Conn.rwc c b = Call.waits) := by
  have hlast : ∀ (c : Conn) (b : List Nat),
      NewPendingConn.Write Conn.rwc c b = Call.waits ∧
      NewPendingConn.Read Conn.rwc c b = Call.waits := fun c b => ⟨rfl, rfl⟩
  rcases procConn_cases Dailer input readErr writeErr with
    ⟨c1, e, h, hlg⟩ | ⟨c1, h, hlg⟩ | ⟨c5, buf5, remote, port, h, hlg, hws, hwf⟩
  · rw [h]
    rcases hlg with hlg | hlg <;>
      simp [Result.ret, Conn.Close, hlg, hlast]
  · rw [h]
    simp [Result.panic, hlg, hlast]
  · rw [h]
    obtain ⟨hl, he⟩ := dialRemote_log Dailer c5 buf5 remote port
    rw [hl, he, hlg, hws, hwf]
    generalize remote ++ bytes ":" ++ bytes (fmtV port) = uri
    cases hd : Dailer uri with
    | some e => simp [hd, hlast]
    | none =>
      cases hw : writeErr 1 with
      | none => simp [hd, hw, hlast]
      | some e => simp [hd, hw, hlast]


/-! ## SOCKS5 uri and the address: lemmas -/

theorem store_congr_in (bufA bufB : Buf) (off : Nat) (data : List Nat) (j : Nat)
    (h1 : off ≤ j) (h2 : j < off + data.length) :
    bufA.store off data j = bufB.store off data j := by
  rw [store_apply_in _ _ _ _ h1 h2, store_apply_in _ _ _ _ h1 h2]

theorem store_congr_out (bufA bufB : Buf) (off : Nat) (data : List Nat) (j : Nat)
    (h : j < off ∨ off + data.length ≤ j) (hj : bufA j = bufB j) :
    bufA.store off data j = bufB.store off data j := by
  rw [store_apply_out _ _ _ _ h, store_apply_out _ _ _ _ h, hj]

theorem slice_congr (f g : Buf) (lo hi : Nat) (h : ∀ j, lo ≤ j → j < hi → f j = g j) :
    f.slice lo hi = g.slice lo hi := by
  unfold Buf.slice
  apply List.map_congr_left
  intro k hk
  have hk2 : k < hi - lo := List.mem_range.mp hk
  exact h (lo + k) (by omega) (by omega)

theorem parseRequest_congr (c : Conn) (bufA bufB : Buf) (h0 : bufA 0 = bufB 0)
    (h3 : bufA 3 = bufB 3) (h4 : bufA 4 = bufB 4) :
    (parseRequest c bufA).forget = (parseRequest c bufB).forget := by
  unfold parseRequest
  rw [h3, h4]
  by_cases hA : bufB 3 = 0x01
  · simp only [hA, if_true]
    unfold fullBuf
    by_cases hlen : 5 ≤ c.input.length
    · have hdl : (c.input.take 5).length = 5 := by simp; omega
      simp only [hlen, if_true, Request.forget, Request.parsed.injEq, true_and, and_true]
      rw [store_congr_out bufA bufB 5 _ 4 (by omega) h4,
        store_congr_in bufA bufB 5 _ 5 (by omega) (by omega),
        store_congr_in bufA bufB 5 _ 6 (by omega) (by omega),
        store_congr_in bufA bufB 5 _ 7 (by omega) (by omega),
        store_congr_in bufA bufB 5 _ 8 (by omega) (by omega),
        store_congr_in bufA bufB 5 _ 9 (by omega) (by omega)]
      exact ⟨rfl, rfl⟩
    · simp only [hlen, if_false, Request.forget]
  · simp only [hA, if_false]
    by_cases hB : bufB 3 = 0x03
    · simp only [hB, if_true]
      unfold fullBuf
      by_cases hlen : (bufB 4 + 2) % 256 ≤ c.input.length
      · have hdl : (c.input.take ((bufB 4 + 2) % 256)).length = (bufB 4 + 2) % 256 := by
          simp; omega
        simp only [hlen, if_true]
        rw [store_congr_out bufA bufB 5 _ 4 (by omega) h4]
        have hL : Buf.store bufB 5 (c.input.take ((bufB 4 + 2) % 256)) 4 = bufB 4 :=
          store_apply_out _ _ _ _ (by omega)
        rw [hL]
        by_cases hp : (bufB 4 + 5) % 256 < 5
        · simp only [hp, if_true, Request.forget]
        · simp only [hp, if_false, Request.forget, Request.parsed.injEq, true_and, and_true]
          have hsl : Buf.slice (Buf.store bufA 5 (c.input.take ((bufB 4 + 2) % 256))) 5
              ((bufB 4 + 5) % 256) =
              Buf.slice (Buf.store bufB 5 (c.input.take ((bufB 4 + 2) % 256))) 5
                ((bufB 4 + 5) % 256) := by
            apply slice_congr
            intro j hj1 hj2
            exact store_congr_in bufA bufB 5 _ j hj1 (by omega)
          have hhi : Buf.store bufA 5 (c.input.take ((bufB 4 + 2) % 256)) ((bufB 4 + 5) % 256) =
              Buf.store bufB 5 (c.input.take ((bufB 4 + 2) % 256)) ((bufB 4 + 5) % 256) :=
            store_congr_in bufA bufB 5 _ _ (by omega) (by omega)
          have hlo : Buf.store bufA 5 (c.input.take ((bufB 4 + 2) % 256)) ((bufB 4 + 6) % 256) =
              Buf.store bufB 5 (c.input.take ((bufB 4 + 2) % 256)) ((bufB 4 + 6) % 256) := by
            by_cases h250 : (bufB 4 + 6) % 256 = 0
            · rw [h250]
              exact store_congr_out bufA bufB 5 _ 0 (by omega) h0
            · exact store_congr_in bufA bufB 5 _ _ (by omega) (by omega)
          rw [hsl, hhi, hlo]
          exact ⟨rfl, rfl⟩
      · simp only [hlen, if_false, Request.forget]
    · simp only [hB, if_false]

theorem dialRemote_dailed_forget (Dailer : List Nat → Option String) (c : Conn)
    (bufA bufB : Buf) (remote : List Nat) (port : Nat) :
    (dialRemote Dailer c bufA remote port).dailed =
      (dialRemote Dailer c bufB remote port).dailed := by
  rw [(dialRemote_dailed Dailer c bufA remote port).1,
    (dialRemote_dailed Dailer c bufB remote port).1]

theorem procRequest_dailed_congr (Dailer : List Nat → Option String) (bufA bufB : Buf)
    (cmdA rsvA cmdB rsvB : Nat) (tail : List Nat) (readErr : String)
    (writeErr : Nat → Option String) :
    (procRequest Dailer (Conn.negotiated ([0x05, cmdA, rsvA] ++ tail) readErr writeErr)
      bufA).dailed =
    (procRequest Dailer (Conn.negotiated ([0x05, cmdB, rsvB] ++ tail) readErr writeErr)
      bufB).dailed := by
  match tail with
  | [] =>
    unfold procRequest
    rw [fullBuf_short _ _ _ _ (by simp [Conn.negotiated]),
      fullBuf_short _ _ _ _ (by simp [Conn.negotiated])]
    simp [Result.ret, Result.dailed, Conn.Close, Conn.negotiated]
  | [x] =>
    unfold procRequest
    rw [fullBuf_short _ _ _ _ (by simp [Conn.negotiated]),
      fullBuf_short _ _ _ _ (by simp [Conn.negotiated])]
    simp [Result.ret, Result.dailed, Conn.Close, Conn.negotiated]
  | atyp :: x :: rest =>
    have hfA := fullBuf_mk [0x05, cmdA, rsvA, atyp, x] rest readErr writeErr 1
      [Event.write [0x05, 0x00]] bufA 0 5 rfl
    have hfB := fullBuf_mk [0x05, cmdB, rsvB, atyp, x] rest readErr writeErr 1
      [Event.write [0x05, 0x00]] bufB 0 5 rfl
    have hA0 : Buf.store bufA 0 [0x05, cmdA, rsvA, atyp, x] 0 = 0x05 := by simp [Buf.store]
    have hB0 : Buf.store bufB 0 [0x05, cmdB, rsvB, atyp, x] 0 = 0x05 := by simp [Buf.store]
    have hA3 : Buf.store bufA 0 [0x05, cmdA, rsvA, atyp, x] 3 = atyp := by simp [Buf.store]
    have hB3 : Buf.store bufB 0 [0x05, cmdB, rsvB, atyp, x] 3 = atyp := by simp [Buf.store]
    have hA4 : Buf.store bufA 0 [0x05, cmdA, rsvA, atyp, x] 4 = x := by simp [Buf.store]
    have hB4 : Buf.store bufB 0 [0x05, cmdB, rsvB, atyp, x] 4 = x := by simp [Buf.store]
    have hc := parseRequest_congr
      { input := rest, readErr := readErr, writeErr := writeErr, writes := 1,
        log := [Event.write [0x05, 0x00]] }
      (Buf.store bufA 0 [0x05, cmdA, rsvA, atyp, x]) (Buf.store bufB 0 [0x05, cmdB, rsvB, atyp, x])
      (by rw [hA0, hB0]) (by rw [hA3, hB3]) (by rw [hA4, hB4])
    unfold procRequest Conn.negotiated
    have hinA : [0x05, cmdA, rsvA] ++ atyp :: x :: rest = [0x05, cmdA, rsvA, atyp, x] ++ rest := rfl
    have hinB : [0x05, cmdB, rsvB] ++ atyp :: x :: rest = [0x05, cmdB, rsvB, atyp, x] ++ rest := rfl
    rw [hinA, hinB]
    simp only [hfA, hfB, hA0, hB0]
    simp only [ne_eq, not_true_eq_false, if_false]
    revert hc
    cases parseRequest _ (Buf.store bufA 0 [0x05, cmdA, rsvA, atyp, x]) <;>
      cases parseRequest _ (Buf.store bufB 0 [0x05, cmdB, rsvB, atyp, x]) <;>
      intro hc <;> simp only [Request.forget, Request.parsed.injEq, reduceCtorEq,
        Request.unsupported.injEq] at hc
    · obtain ⟨h1, -, h3, h4, -⟩ := hc
      subst h1 h3 h4
      exact dialRemote_dailed_forget Dailer _ _ _ _ _
    · subst hc
      rfl
    · rfl

theorem procConn_negotiation_fail (Dailer : List Nat → Option String) (methods tail : List Nat)
    (readErr : String) (writeErr : Nat → Option String) (e : String)
    (hw : writeErr 0 = some e) :
    (procConn Dailer (Conn.accepted (negotiation methods ++ tail) readErr writeErr)).dailed =
      [] ∧
    (procConn Dailer (Conn.accepted (negotiation methods ++ tail) readErr writeErr)).conn.log =
      [Event.write [0x05, 0x00], Event.close] := by
  have h1 := fullBuf_mk [0x05, methods.length] (methods ++ tail) readErr writeErr 0 []
    (fun _ => 0) 0 2 rfl
  have h0 : Buf.store (fun _ => 0) 0 [0x05, methods.length] 0 = 0x05 := by simp [Buf.store]
  have h01 : Buf.store (fun _ => 0) 0 [0x05, methods.length] 1 = methods.length := by
    simp [Buf.store]
  have h2 := fullBuf_mk methods tail readErr writeErr 0 []
    (Buf.store (fun _ => 0) 0 [0x05, methods.length]) 2 methods.length rfl
  have hin : negotiation methods ++ tail = [0x05, methods.length] ++ (methods ++ tail) := by
    simp [negotiation]
  unfold procConn Conn.accepted
  rw [hin]
  simp only [h1, h0, h01, h2]
  simp [Conn.Write, hw, Result.ret, Result.dailed, Conn.Close]


theorem procRequest_log_prefix (Dailer : List Nat → Option String) (c : Conn) (buf : Buf) :
    ∃ rest, (procRequest Dailer c buf).conn.log = c.log ++ rest := by
  rcases procRequest_cases Dailer c buf with
    ⟨c1, e, h, hlg⟩ | ⟨c1, h, hlg⟩ | ⟨c5, buf5, remote, port, h, hlg, _, _⟩
  · exact ⟨[Event.close], by rw [h]; simp [Result.ret, Conn.Close, hlg]⟩
  · exact ⟨[], by rw [h]; simp [Result.panic, hlg]⟩
  · rw [h, (dialRemote_log Dailer c5 buf5 remote port).1, hlg, List.append_assoc]
    exact ⟨_, rfl⟩

/-! ## SOCKS5 uri and the address: claims -/

/-- C17: two client inputs that differ only in the offered authentication
methods, the command byte and the reserved byte of the request, and agree on
everything from the address-type byte on (address type, address, port), make
procConn pass the same uris to Dailer; and whatever methods the client offers,
the first call procConn makes after a complete method negotiation is the
write of the method-selection reply 05 00. -/
theorem procConn_uri_of_address (Dailer : List Nat → Option String)
    (methodsA methodsB : List Nat) (cmdA rsvA cmdB rsvB : Nat) (tail : List Nat)
    (readErr : String) (writeErr : Nat → Option String) :
    (procConn Dailer (Conn.accepted (negotiation methodsA ++ ([0x05, cmdA, rsvA] ++ tail))
      readErr writeErr)).dailed =
    (procConn Dailer (Conn.accepted (negotiation methodsB ++ ([0x05, cmdB, rsvB] ++ tail))
      readErr writeErr)).dailed ∧
    ∃ rest, (procConn Dailer (Conn.accepted (negotiation methodsA ++ ([0x05, cmdA, rsvA] ++ tail))
      readErr writeErr)).conn.log = Event.write [0x05, 0x00] :: rest := by
  cases hw : writeErr 0 with
  | some e =>
    have hA := procConn_negotiation_fail Dailer methodsA ([0x05, cmdA, rsvA] ++ tail) readErr
      writeErr e hw
    have hB := procConn_negotiation_fail Dailer methodsB ([0x05, cmdB, rsvB] ++ tail) readErr
      writeErr e hw
    exact ⟨by rw [hA.1, hB.1], ⟨_, hA.2⟩⟩
  | none =>
    rw [procConn_negotiation Dailer methodsA _ readErr writeErr hw,
      procConn_negotiation Dailer methodsB _ readErr writeErr hw]
    refine ⟨procRequest_dailed_congr Dailer _ _ cmdA rsvA cmdB rsvB tail readErr writeErr, ?_⟩
    obtain ⟨rest, hr⟩ := procRequest_log_prefix Dailer
      (Conn.negotiated ([0x05, cmdA, rsvA] ++ tail) readErr writeErr)
      (Buf.store (Buf.store (fun _ => 0) 0 [0x05, methodsA.length]) 2 methodsA)
    exact ⟨rest, by rw [hr]; rfl⟩

/-- CONNECT with one offered method and UDP ASSOCIATE with three, a set
reserved byte included, dial the same uri for the same address and port. -/
theorem procConn_uri_of_address_example :
    (procConn (fun _ => none) (Conn.client (negotiation [0] ++
      ([0x05, 1, 0] ++ [1, 10, 0, 0, 1, 0, 80])))).dailed = [bytes "10.0.0.1:80"] ∧
    (procConn (fun _ => none) (Conn.client (negotiation [0, 1, 2] ++
      ([0x05, 3, 7] ++ [1, 10, 0, 0, 1, 0, 80])))).dailed = [bytes "10.0.0.1:80"] := by
  refine ⟨by decide, by decide⟩

/-! ## PendingConn wakes once: lemmas -/

theorem call_first {ρ : Type} (io : ReadWriteCloser ρ) (raw : ρ) (c : GateCall) :
    PendingConn.call io (NewPendingConn, raw) c =
      some (⟨0, Chan.closed⟩, rawAfter io raw [c]) := by
  cases c <;> rfl

theorem call_later {ρ : Type} (io : ReadWriteCloser ρ) (raw : ρ) (c : GateCall) :
    PendingConn.call io (⟨0, Chan.closed⟩, raw) c =
      some (⟨0, Chan.closed⟩, rawAfter io raw [c]) := by
  cases c <;> rfl

theorem calls_later {ρ : Type} (io : ReadWriteCloser ρ) (cs : List GateCall) :
    ∀ raw : ρ, PendingConn.calls io (⟨0, Chan.closed⟩, raw) cs =
      some (⟨0, Chan.closed⟩, rawAfter io raw cs) := by
  induction cs with
  | nil => intro raw; rfl
  | cons c cs ih =>
    intro raw
    simp only [PendingConn.calls, call_later]
    rw [ih]
    rfl

/-! ## PendingConn wakes once: claims -/

/-- C14: for every sequence of Start and Close calls on a PendingConn as
NewPendingConn made it, no call panics; the first call closes the wait
channel, and every later call finds pending at 0, fails its compare-and-swap
and leaves the closed channel alone, so the channel is closed exactly once; in
every state reached pending is 0 if and only if the channel is closed; every
Close call, first or repeated, calls Raw.Close; and no interleaving of the
statements of such calls panics either. -/
theorem pendingConn_wakes_once {ρ : Type} (io : ReadWriteCloser ρ) (raw : ρ) :
    (∀ cs : List GateCall, ∃ p, PendingConn.calls io (NewPendingConn, raw) cs =
        some (p, rawAfter io raw cs) ∧ (p.pending = 0 ↔ p.wc = Chan.closed)) ∧
    (∀ (c : GateCall) (cs : List GateCall),
      NewPendingConn.wc = Chan.opened ∧
      PendingConn.call io (NewPendingConn, raw) c =
        some (⟨0, Chan.closed⟩, rawAfter io raw [c]) ∧
      PendingConn.calls io (NewPendingConn, raw) (c :: cs) =
        some (⟨0, Chan.closed⟩, rawAfter io raw (c :: cs)) ∧
      (PendingConn.casPending ⟨0, Chan.closed⟩).2 = false) ∧
    (∀ acts : List Action, ((Sys.init raw).exec io acts).panicked = false) := by
  have hcons : ∀ (c : GateCall) (cs : List GateCall),
      PendingConn.calls io (NewPendingConn, raw) (c :: cs) =
        some (⟨0, Chan.closed⟩, rawAfter io raw (c :: cs)) := by
    intro c cs
    simp only [PendingConn.calls, call_first]
    rw [calls_later]
    rfl
  refine ⟨?_, ?_, ?_⟩
  · intro cs
    cases cs with
    | nil => exact ⟨NewPendingConn, rfl, by simp [NewPendingConn]⟩
    | cons c cs => exact ⟨⟨0, Chan.closed⟩, hcons c cs, by simp⟩
  · intro c cs
    exact ⟨rfl, call_first io raw c, hcons c cs, rfl⟩
  · intro acts
    exact (sound_exec io acts (Sys.init raw) (sound_init raw)).1

/-- Start, Close, Close, Start on the `Echo` of the tests: no panic, the
channel closed, and `Raw.Close` called twice (the state of the echo, its number
of writes, is untouched). -/
theorem pendingConn_wakes_once_example :
    PendingConn.calls echoRaw (NewPendingConn, 0)
      [GateCall.start, GateCall.close, GateCall.close, GateCall.start] =
        some (⟨0, Chan.closed⟩, 0) := by
  decide


/-! ## Router.Dial: claims -/

/-- A dial whose head names a bond with a channel succeeds: it returns the next
sid and records one Pending entry for it. -/
theorem dial_found (node : Node) (path : List Nat) (i : Nat) (rest : List Nat)
    (hp : path ≠ []) (hb : node.router.bonds.lookup (headName path) = some (i :: rest)) :
    (Dial node path).2.2 = none ∧ (Dial node path).2.1 = node.sidAlloc + 1 ∧
    ∃ index, (Dial node path).1.pendings =
      { bond := headName path, index := index, sid := node.sidAlloc + 1, origin := none } ::
        node.pendings := by
  unfold Dial
  rw [if_neg hp, hb]
  have hl : ∃ index, leastUsed (node.used (headName path)) (i :: rest) = some index := by
    simp only [leastUsed]
    cases leastUsed (node.used (headName path)) rest with
    | none => exact ⟨i, rfl⟩
    | some j =>
      simp only
      split
      · exact ⟨i, rfl⟩
      · exact ⟨j, rfl⟩
  obtain ⟨index, hi⟩ := hl
  simp only [hi]
  exact ⟨trivial, trivial, index, rfl⟩

/-- C11: for every path whose head hop names no bond of the router, Dial
returns an error and leaves the router as it was: no session entry, no pending
entry, no sid and no frame. -/
theorem dial_unknown_head (node : Node) (path : List Nat)
    (h : node.router.bonds.lookup (headName path) = none) :
    (Dial node path).2.2 ≠ none ∧
    (Dial node path).1.sessions = node.sessions ∧
    (Dial node path).1.pendings = node.pendings ∧
    (Dial node path).1.sidAlloc = node.sidAlloc ∧
    (Dial node path).1.sent = node.sent := by
  unfold Dial
  by_cases hp : path = []
  · simp [hp]
  · simp [hp, h]

/-- Witness of C11: the path `not->abc` of the tests on a router whose only
bond is `xx`. -/
theorem dial_unknown_head_witness :
    (Dial ⟨⟨"master", [("ms", "abc")], [("xx", [0])]⟩, [], [], 0, fun _ _ => 0, []⟩
      (bytes "not->abc")).2.2 ≠ none ∧
    (Dial ⟨⟨"master", [("ms", "abc")], [("xx", [0])]⟩, [], [], 0, fun _ _ => 0, []⟩
      (bytes "not->abc")).1.sessions = [] ∧
    (Dial ⟨⟨"master", [("ms", "abc")], [("xx", [0])]⟩, [], [], 0, fun _ _ => 0, []⟩
      (bytes "not->abc")).1.pendings = [] ∧
    (Dial ⟨⟨"master", [("ms", "abc")], [("xx", [0])]⟩, [], [], 0, fun _ _ => 0, []⟩
      (bytes "not->abc")).1.sidAlloc = 0 ∧
    (Dial ⟨⟨"master", [("ms", "abc")], [("xx", [0])]⟩, [], [], 0, fun _ _ => 0, []⟩
      (bytes "not->abc")).1.sent = [] :=
  dial_unknown_head ⟨⟨"master", [("ms", "abc")], [("xx", [0])]⟩, [], [], 0, fun _ _ => 0, []⟩
    (bytes "not->abc") (by decide)

/-- The single hop `uri` of the tests names no bond either, and the path
`xx->abc` is sent on as `abc` with sid 1. -/
theorem dial_examples :
    (Dial ⟨⟨"master", [("ms", "abc")], [("xx", [0])]⟩, [], [], 0, fun _ _ => 0, []⟩
      (bytes "uri")).2.2 = some "channel not found: uri" ∧
    (Dial ⟨⟨"master", [("ms", "abc")], [("xx", [0])]⟩, [], [], 0, fun _ _ => 0, []⟩
      (bytes "xx->abc")).1.sent = [("xx", 0, 1, bytes "abc")] := by
  refine ⟨by decide, by decide⟩


end Bsck
